import Mathlib

/-!
The go-gateway client: the agent loop, the tool catalog adapter and the conversation store

A shallow embedding of `client.go`.  The collaborators of the program (the tool
host reached through the MCP client, the generative model, the Postgres pool)
are explicit: the tool host and the model are an `Env` of state-passing
functions over a world state, the database is a `Store` value.  Go's `error`
is a value observed through its message, a Go `int` is an `Int`, and a request
context (deadlines, cancellation) is left out.
-/

namespace Gateway

/-! ## Values shared with the libraries -/

/-- A decoded JSON value, as `encoding/json` produces for the type `any`. -/
inductive JVal where
  | null
  | bool (b : Bool)
  | num (n : Int)
  | str (s : String)
  | arr (xs : List JVal)
  | obj (kvs : List (String × JVal))

/-- A Go `map[string]any`; the nil map and the empty map are both `[]`. -/
abbrev JMap := List (String × JVal)

/-- The map index expression `m[k]`: `none` stands for the nil interface value,
which Go yields for a missing key and for a stored JSON null alike. -/
def JMap.get (m : JMap) (k : String) : Option JVal :=
  match m.find? (fun kv => kv.1 == k) with
  | some (_, JVal.null) => none
  | some (_, v) => some v
  | none => none

/-- The type assertion `v.(string)` with the comma-ok result dropped: the zero
value, the empty string, when `v` is not a string. -/
def asString (v : Option JVal) : String :=
  match v with
  | some (JVal.str s) => s
  | _ => ""

/-- A Go `error`, observed through its `Error()` message. -/
structure GoError where
  msg : String
deriving DecidableEq

/-- The method `Error()`. -/
def GoError.Error (e : GoError) : String := e.msg

/-- The error `fmt.Errorf(pre + "%w", err)`. -/
def wrapError (pre : String) (err : GoError) : GoError := ⟨pre ++ err.Error⟩

/-- The error that ends a run whose step budget is used up. -/
def maxStepsError : GoError := ⟨"maxSteps exceeded without final answer"⟩

/-! ## Strings -/

/-- Go's `unicode.IsSpace`. -/
def isSpace (c : Char) : Bool :=
  let n := c.toNat
  n == 0x09 || n == 0x0A || n == 0x0B || n == 0x0C || n == 0x0D || n == 0x20 ||
  n == 0x85 || n == 0xA0 || n == 0x1680 || (0x2000 ≤ n && n ≤ 0x200A) ||
  n == 0x2028 || n == 0x2029 || n == 0x202F || n == 0x205F || n == 0x3000

/-- Go's `strings.TrimSpace`: leading and trailing white space removed. -/
def TrimSpace (s : String) : String :=
  String.mk ((s.data.dropWhile isSpace).reverse.dropWhile isSpace).reverse

/-- Go's `strings.Join`. -/
def Join (elems : List String) (sep : String) : String :=
  match elems with
  | [] => ""
  | e :: rest => rest.foldl (fun acc x => acc ++ sep ++ x) e

/-! ## MCP and genai values -/

/-- One content part of a tool result (`mcp.Content`). -/
inductive McpContent where
  | text (Text : String)
  | image (Data : String) (MIMEType : String)
  | sound (Data : String) (MIMEType : String)
  | resource (URI : String)
deriving DecidableEq

/-- The result `mcp.AsTextContent(c)`: the text of a text part, `none` for the
other kinds (the `ok` flag being false). -/
def AsTextContent (c : McpContent) : Option String :=
  match c with
  | McpContent.text t => some t
  | _ => none

/-- An `mcp.CallToolResult`. -/
structure CallToolResult where
  Content : List McpContent
  IsError : Bool
deriving DecidableEq

/-- An `mcp.Tool`.  The type belongs to the mcp-go library; this program reads a
tool only through `json.Marshal` followed by `json.Unmarshal` into a
`map[string]any`, so a tool is represented by the outcome of that round trip,
`none` when marshalling fails and the map stays nil. -/
structure Tool where
  decoded : Option JMap

/-- A `genai.FunctionDeclaration`, with the three fields the program sets. -/
structure FunctionDeclaration where
  Name : String
  Description : String
  ParametersJsonSchema : Option JVal

/-- The response map handed to `genai.NewContentFromFunctionResponse`: either
the map with the single key "error" or the map with the keys "text" and "raw". -/
inductive FunctionResponsePayload where
  | error (msg : String)
  | result (text : String) (raw : Option CallToolResult)
deriving DecidableEq

/-- A `genai.Part`: a text part or a function response part. -/
inductive Part where
  | text (Text : String)
  | functionResponse (Name : String) (Response : FunctionResponsePayload)
deriving DecidableEq

/-- A `genai.Content`: one turn of the conversation. -/
structure Content where
  Parts : List Part
  Role : String
deriving DecidableEq

/-- The constructor `genai.NewContentFromText`. -/
def NewContentFromText (text : String) (role : String) : Content :=
  { Parts := [Part.text text], Role := role }

/-- The constructor `genai.NewContentFromFunctionResponse`. -/
def NewContentFromFunctionResponse (name : String) (response : FunctionResponsePayload)
    (role : String) : Content :=
  { Parts := [Part.functionResponse name response], Role := role }

/-- A `genai.FunctionCall`. -/
structure FunctionCall where
  Name : String
  Args : JMap

/-- A `genai.GenerateContentResponse`, represented by what the program reads
from it: the results of its methods `Text()` and `FunctionCalls()`. -/
structure GenerateContentResponse where
  Text : String
  FunctionCalls : List FunctionCall

/-- The calling mode `genai.FunctionCallingConfigMode`. -/
inductive FunctionCallingConfigMode where
  | modeAuto
  | modeAny
deriving DecidableEq

/-- A `genai.GenerateContentConfig`, with the fields the agent loop sets. -/
structure GenerateContentConfig where
  Tools : List (List FunctionDeclaration)
  SystemInstruction : Option Content
  ToolConfig : FunctionCallingConfigMode

/-! ## The agent loop -/

/-- One entry of the trace of a run (`StepTrace`). -/
structure StepTrace where
  CallName : String
  Args : JMap
  Text : String
  Error : String
  Raw : Option CallToolResult
  Final : Bool

/-- The function `extractToolText`. -/
def extractToolText (res : Option CallToolResult) : String :=
  match res with
  | none => ""
  | some r =>
    let out := r.Content.foldl
      (fun (out : List String) c =>
        match AsTextContent c with
        | some t => if TrimSpace t ≠ "" then out ++ [t] else out
        | none => out)
      []
    Join out "\n"

/-- One iteration of the loop of `buildFunctionDecls` over the tool `t`. -/
def buildFunctionDeclsStep (acc : List FunctionDeclaration × (String → Option Tool)) (t : Tool) :
    List FunctionDeclaration × (String → Option Tool) :=
  let m : JMap := t.decoded.getD []
  let name := asString (m.get "name")
  if name = "" then acc
  else
    let desc := asString (m.get "description")
    let params := m.get "inputSchema"
    let fd : FunctionDeclaration :=
      { Name := name, Description := desc, ParametersJsonSchema := params }
    (acc.1 ++ [fd], fun k => if k = name then some t else acc.2 k)

/-- The function `buildFunctionDecls`: the declarations and the lookup `index`,
a Go map represented by its lookup function. -/
def buildFunctionDecls (tools : List Tool) : List FunctionDeclaration × (String → Option Tool) :=
  tools.foldl buildFunctionDeclsStep ([], fun _ => none)

/-- The tool host and the model, as state-passing functions over a world state
`σ`: `ListTools` and `CallTool` of the MCP client, `GenerateContent` of the
genai client.  `CallTool` returns the Go pair of a result pointer and an error. -/
structure Env (σ : Type) where
  ListTools : σ → Except GoError (List Tool) × σ
  GenerateContent :
    σ → String → List Content → GenerateContentConfig → Except GoError GenerateContentResponse × σ
  CallTool : σ → String → JMap → (Option CallToolResult × Option GoError) × σ

/-- The observer `onTool`; `none` is the nil callback. -/
abbrev Observer (σ : Type) :=
  Option (σ → Nat → String → JMap → Option CallToolResult → Option GoError → σ)

/-- A call the run made to a collaborator, with what it got back.  The run
records these in order; the record is not part of the Go program. -/
inductive Event where
  | listTools (out : Except GoError (List Tool))
  | generate (contents : List Content) (out : Except GoError GenerateContentResponse)
  | callTool (name : String) (args : JMap) (res : Option CallToolResult) (err : Option GoError)
  | onTool (step : Nat) (name : String) (args : JMap) (res : Option CallToolResult)
      (err : Option GoError)

/-- The variables of a run in flight: the world, `contents`, `trace` and the
record of calls made so far. -/
structure LoopState (σ : Type) where
  world : σ
  contents : List Content
  trace : List StepTrace
  log : List Event

/-- What `agentLoop` returns (`finalText`, `trace`, `err`), with the world it
leaves and the record of the calls it made. -/
structure LoopResult (σ : Type) where
  finalText : String
  trace : List StepTrace
  err : Option GoError
  world : σ
  log : List Event

/-- The world and the record after the callback `onTool` ran, if there is one. -/
def observe {σ : Type} (onTool : Observer σ) (w : σ) (log : List Event) (step : Nat)
    (name : String) (args : JMap) (res : Option CallToolResult) (callErr : Option GoError) :
    σ × List Event :=
  match onTool with
  | none => (w, log)
  | some f => (f w step name args res callErr, log ++ [Event.onTool step name args res callErr])

/-- The inner loop `for _, c := range calls` of `agentLoop`, in round `step`. -/
def execCalls {σ : Type} (env : Env σ) (onTool : Observer σ) (step : Nat) :
    List FunctionCall → LoopState σ → LoopState σ
  | [], st => st
  | c :: cs, st =>
    let args : JMap := c.Args
    let out := env.CallTool st.world c.Name args
    let res := out.1.1
    let callErr := out.1.2
    let obs := observe onTool out.2 (st.log ++ [Event.callTool c.Name args res callErr])
      step c.Name args res callErr
    match callErr with
    | some e =>
      let entry : StepTrace :=
        { CallName := c.Name, Args := args, Text := "", Error := e.Error, Raw := res,
          Final := false }
      execCalls env onTool step cs
        { world := obs.1
          contents := st.contents ++
            [NewContentFromFunctionResponse c.Name (FunctionResponsePayload.error entry.Error) "tool"]
          trace := st.trace ++ [entry]
          log := obs.2 }
    | none =>
      let entry : StepTrace :=
        { CallName := c.Name, Args := args, Text := extractToolText res, Error := "", Raw := res,
          Final := false }
      execCalls env onTool step cs
        { world := obs.1
          contents := st.contents ++
            [NewContentFromFunctionResponse c.Name (FunctionResponsePayload.result entry.Text res)
              "tool"]
          trace := st.trace ++ [entry]
          log := obs.2 }

/-- The outer loop `for step := 0; step < maxSteps; step++` of `agentLoop` with
`left` rounds to go, so that the current round is `step = maxSteps - left`;
with no round left the run ends with the budget error. -/
def rounds {σ : Type} (env : Env σ) (model : String) (cfg : GenerateContentConfig)
    (onTool : Observer σ) (maxSteps : Nat) : Nat → LoopState σ → LoopResult σ
  | 0, st =>
    { finalText := "", trace := st.trace, err := some maxStepsError, world := st.world,
      log := st.log }
  | left + 1, st =>
    let out := env.GenerateContent st.world model st.contents cfg
    let log := st.log ++ [Event.generate st.contents out.1]
    match out.1 with
    | Except.error err =>
      { finalText := "", trace := st.trace, err := some err, world := out.2, log := log }
    | Except.ok resp =>
      match resp.FunctionCalls with
      | [] =>
        { finalText := resp.Text
          trace := st.trace ++
            [{ CallName := "", Args := [], Text := resp.Text, Error := "", Raw := none,
               Final := true }]
          err := none, world := out.2, log := log }
      | c :: cs =>
        rounds env model cfg onTool maxSteps left
          (execCalls env onTool (maxSteps - (left + 1)) (c :: cs)
            { world := out.2, contents := st.contents, trace := st.trace, log := log })

/-- The step budget after the clamp `if maxSteps <= 0 || maxSteps > 16`. -/
def clampMaxSteps (maxSteps : Int) : Int :=
  if maxSteps ≤ 0 ∨ maxSteps > 16 then 8 else maxSteps

/-- The generation configuration `cfg` that `agentLoop` builds once per run. -/
def buildConfig (decls : List FunctionDeclaration) (sysPrompt : String) (forceTools : Bool) :
    GenerateContentConfig :=
  { Tools := [decls]
    SystemInstruction :=
      if sysPrompt ≠ "" then some { Parts := [Part.text sysPrompt], Role := "" } else none
    ToolConfig :=
      if forceTools then FunctionCallingConfigMode.modeAny else FunctionCallingConfigMode.modeAuto }

/-- The function `agentLoop`, run from the world `w`. -/
def agentLoop {σ : Type} (env : Env σ) (w : σ) (model : String) (history : List Content)
    (userQ : String) (sysPrompt : String) (maxSteps : Int) (forceTools : Bool)
    (onTool : Observer σ) : LoopResult σ :=
  let tl := env.ListTools w
  match tl.1 with
  | Except.error err =>
    { finalText := "", trace := [], err := some (wrapError "list tools: " err), world := tl.2,
      log := [Event.listTools tl.1] }
  | Except.ok tools =>
    let decls := (buildFunctionDecls tools).1
    let cfg := buildConfig decls sysPrompt forceTools
    let contents := history ++ [NewContentFromText userQ "user"]
    let budget := (clampMaxSteps maxSteps).toNat
    rounds env model cfg onTool budget budget
      { world := tl.2, contents := contents, trace := [], log := [Event.listTools tl.1] }

/-! ## The conversation store -/

/-- A row of the table `chat_messages`; `content` is a nullable column and
`created_at` a timestamp, counted in ticks. -/
structure ChatMessage where
  session_id : String
  role : String
  content : Option String
  created_at : Nat
deriving DecidableEq

/-- The database behind the pool: the rows of `chat_messages` in insertion
order, and the failures the pool may meet: `queryErr` makes `pool.Query` fail,
`streamFault = some (k, err)` breaks the row stream after `k` rows, so that
`rows.Next()` turns false there and `rows.Err()` is `err`. -/
structure Store where
  chat_messages : List ChatMessage
  queryErr : Option GoError
  streamFault : Option (Nat × GoError)

/-- The record `DBMessage`, without the timestamp the caller never reads. -/
structure DBMessage where
  Role : String
  Content : String
deriving DecidableEq

/-- The limit after the clamp `if limit <= 0 || limit > 1000`. -/
def clampLimit (limit : Int) : Int :=
  if limit ≤ 0 ∨ limit > 1000 then 50 else limit

/-- The order `ORDER BY created_at ASC` on rows. -/
def createdLE (a b : ChatMessage) : Prop := a.created_at ≤ b.created_at

instance : DecidableRel createdLE := fun a b => Nat.decLe a.created_at b.created_at

instance : IsTotal ChatMessage createdLE := ⟨fun a b => Nat.le_total a.created_at b.created_at⟩

instance : IsTrans ChatMessage createdLE := ⟨fun _ _ _ h₁ h₂ => Nat.le_trans h₁ h₂⟩

/-- The rows the history query selects: those of the session whose role is
`user` or `assistant`, by ascending `created_at`, the first `limit` of them.
SQL leaves the order of rows with equal timestamps open; here they keep their
insertion order. -/
def selectHistory (s : Store) (sessionID : String) (limit : Int) : List ChatMessage :=
  ((s.chat_messages.filter
      (fun m => m.session_id == sessionID && (m.role == "user" || m.role == "assistant"))).insertionSort
    createdLE).take limit.toNat

/-- The call `rows.Scan(&m.Role, &m.Content, &m.Created)`: the driver refuses
to scan a NULL into a Go string. -/
def Scan (row : ChatMessage) : Except GoError DBMessage :=
  match row.content with
  | some text => Except.ok { Role := row.role, Content := text }
  | none => Except.error ⟨"cannot scan NULL into *string"⟩

/-- The loop `for rows.Next()` of `LoadHistoryAsContents` over the rows the
stream delivers, ending with `return out, rows.Err()`. -/
def scanRows (rowsErr : Option GoError) : List ChatMessage → List Content →
    List Content × Option GoError
  | [], out => (out, rowsErr)
  | row :: rest, out =>
    match Scan row with
    | Except.error err => ([], some err)
    | Except.ok m =>
      let role := if m.Role = "assistant" then "model" else "user"
      scanRows rowsErr rest (out ++ [NewContentFromText m.Content role])

/-- The method `Store.LoadHistoryAsContents`: the Go pair of the contents and
the error. -/
def LoadHistoryAsContents (s : Store) (sessionID : String) (limit : Int) :
    List Content × Option GoError :=
  let limit := clampLimit limit
  match s.queryErr with
  | some err => ([], some err)
  | none =>
    let selected := selectHistory s sessionID limit
    match s.streamFault with
    | some (k, err) => scanRows (some err) (selected.take k) []
    | none => scanRows none selected []

/-! ## Reading the record of a run -/

/-- The outcomes of the generation calls of a record, in order. -/
def genOutcomes (log : List Event) : List (Except GoError GenerateContentResponse) :=
  log.filterMap (fun ev =>
    match ev with
    | Event.generate _ out => some out
    | _ => none)

/-- The number of generation calls of a record. -/
def genCount (log : List Event) : Nat := (genOutcomes log).length

/-- The names of the function calls of one generation outcome: none when the
generation failed. -/
def outcomeCallNames (out : Except GoError GenerateContentResponse) : List String :=
  match out with
  | Except.ok resp => resp.FunctionCalls.map FunctionCall.Name
  | Except.error _ => []

/-- The names of the function calls the model returned over all the generation
rounds that succeeded, concatenated in order. -/
def requestedNames (log : List Event) : List String :=
  (genOutcomes log).flatMap outcomeCallNames

/-- The names passed to `CallTool`, one per invocation, in order. -/
def toolCallNames (log : List Event) : List String :=
  log.filterMap (fun ev =>
    match ev with
    | Event.callTool name _ _ _ => some name
    | _ => none)

/-- The trace entry that `agentLoop` builds for a tool call that returned
`res` and `callErr`. -/
def toolEntry (name : String) (args : JMap) (res : Option CallToolResult)
    (callErr : Option GoError) : StepTrace :=
  match callErr with
  | some e =>
    { CallName := name, Args := args, Text := "", Error := e.Error, Raw := res, Final := false }
  | none =>
    { CallName := name, Args := args, Text := extractToolText res, Error := "", Raw := res,
      Final := false }

/-- The final entry that `agentLoop` builds for an answer `text`. -/
def finalEntry (text : String) : StepTrace :=
  { CallName := "", Args := [], Text := text, Error := "", Raw := none, Final := true }

/-- The trace entries of the tool calls of a record, in order. -/
def toolEntries (log : List Event) : List StepTrace :=
  log.filterMap (fun ev =>
    match ev with
    | Event.callTool name args res callErr => some (toolEntry name args res callErr)
    | _ => none)

/-- A generation outcome that ends a run: an error, or a response without
function calls. -/
def endsRun (out : Except GoError GenerateContentResponse) : Bool :=
  match out with
  | Except.ok resp => resp.FunctionCalls.isEmpty
  | Except.error _ => true

/-- A record in which every generation succeeded and asked for a call. -/
def openLog (log : List Event) : Prop := ∀ out ∈ genOutcomes log, endsRun out = false

/-- The step budget of a run, as a count of rounds. -/
def budget (maxSteps : Int) : Nat := (clampMaxSteps maxSteps).toNat

/-- One pass of the inner loop: how the state moves when the first call of a
batch is executed. -/
def afterCall {σ : Type} (env : Env σ) (onTool : Observer σ) (step : Nat) (c : FunctionCall)
    (st : LoopState σ) : LoopState σ :=
  let out := env.CallTool st.world c.Name c.Args
  let obs := observe onTool out.2 (st.log ++ [Event.callTool c.Name c.Args out.1.1 out.1.2])
    step c.Name c.Args out.1.1 out.1.2
  let entry := toolEntry c.Name c.Args out.1.1 out.1.2
  { world := obs.1
    contents := st.contents ++
      [NewContentFromFunctionResponse c.Name
        (match out.1.2 with
          | some _ => FunctionResponsePayload.error entry.Error
          | none => FunctionResponsePayload.result entry.Text out.1.1)
        "tool"]
    trace := st.trace ++ [entry]
    log := obs.2 }

/-- How a run that got its tool catalog ends, read from the result: with an
answer, with the error of a failed generation, or with the budget used up. -/
inductive Ending {σ : Type} (r : LoopResult σ) : Prop where
  | answered (l : List Event) (c : List Content) (resp : GenerateContentResponse)
      (hlog : r.log = l ++ [Event.generate c (Except.ok resp)]) (hopen : openLog l)
      (hcalls : resp.FunctionCalls = []) (htext : r.finalText = resp.Text)
      (herr : r.err = none) (htrace : r.trace = toolEntries l ++ [finalEntry resp.Text]) :
      Ending r
  | failed (l : List Event) (c : List Content) (e : GoError)
      (hlog : r.log = l ++ [Event.generate c (Except.error e)]) (hopen : openLog l)
      (htext : r.finalText = "") (herr : r.err = some e) (htrace : r.trace = toolEntries l) :
      Ending r
  | exhausted (hopen : openLog r.log) (htext : r.finalText = "")
      (herr : r.err = some maxStepsError) (htrace : r.trace = toolEntries r.log) : Ending r

/-! ## Example worlds -/

/-- A scripted world: the state is the list of outcomes the model has still to
give, one per generation call (a generation error once the script is over),
the catalog is fixed and the tool host answers by the name of the tool. -/
def scripted (catalog : Except GoError (List Tool))
    (tool : String → Option CallToolResult × Option GoError) :
    Env (List (Except GoError GenerateContentResponse)) :=
  { ListTools := fun s => (catalog, s)
    GenerateContent := fun s _ _ _ =>
      match s with
      | [] => (Except.error ⟨"script is over"⟩, [])
      | out :: rest => (out, rest)
    CallTool := fun s name _ => (tool name, s) }

/-- A response without function calls. -/
def answer (text : String) : Except GoError GenerateContentResponse :=
  Except.ok { Text := text, FunctionCalls := [] }

/-- A response that asks for the tools of the given names, without arguments. -/
def asks (names : List String) : Except GoError GenerateContentResponse :=
  Except.ok { Text := "", FunctionCalls := names.map (fun n => { Name := n, Args := [] }) }

/-- A tool host on which every call succeeds with one text part. -/
def echoTool (name : String) : Option CallToolResult × Option GoError :=
  (some { Content := [McpContent.text name], IsError := false }, none)

/-- A tool host on which every call fails, with the given message. -/
def failingTool (msg : String) (_ : String) : Option CallToolResult × Option GoError :=
  (none, some ⟨msg⟩)

/-- An event of the record that is a run of the callback `onTool`. -/
def Event.isOnTool (ev : Event) : Bool :=
  match ev with
  | Event.onTool _ _ _ _ _ => true
  | _ => false

/-- An example run: the only tool call fails with an error whose message is
empty, then the model answers. -/
def emptyErrorRun : LoopResult (List (Except GoError GenerateContentResponse)) :=
  agentLoop (scripted (Except.ok []) (failingTool "")) [asks ["t"], answer "done"] "m" [] "q" ""
    0 false none

/-- An example run: a first round with one tool call, then a generation error. -/
def failedRun : LoopResult (List (Except GoError GenerateContentResponse)) :=
  agentLoop (scripted (Except.ok []) echoTool) [asks ["t"], Except.error ⟨"boom"⟩] "m" [] "q" ""
    0 false none

/-! ## Reading a tool of the catalog -/

/-- The name `buildFunctionDecls` extracts from a tool: the string under the
key "name" of its JSON form, empty when there is none. -/
def toolName (t : Tool) : String := asString (JMap.get (t.decoded.getD []) "name")

/-- The description `buildFunctionDecls` extracts from a tool. -/
def toolDescription (t : Tool) : String := asString (JMap.get (t.decoded.getD []) "description")

/-- The input schema `buildFunctionDecls` extracts from a tool. -/
def toolSchema (t : Tool) : Option JVal := JMap.get (t.decoded.getD []) "inputSchema"

/-- The text of a tool result as the interface description words it: the
texts of all its text parts, in order, joined by a newline, the other parts
ignored. -/
def joinedTexts (r : CallToolResult) : String :=
  Join (r.Content.filterMap AsTextContent) "\n"

/-- An example tool result: three text parts, the middle one a single blank. -/
def blankPartResult : CallToolResult :=
  { Content := [McpContent.text "a", McpContent.text " ", McpContent.text "b"], IsError := false }

/-! ## Example stores -/

/-- An example store: one session with a user message, a tool message, an
assistant message written before both and a system message, and a message of
another session; no failure. -/
def sampleStore : Store :=
  { chat_messages :=
      [{ session_id := "s", role := "user", content := some "hi", created_at := 5 },
       { session_id := "s", role := "tool", content := some "42", created_at := 6 },
       { session_id := "s", role := "assistant", content := some "welcome", created_at := 2 },
       { session_id := "s", role := "system", content := some "rules", created_at := 1 },
       { session_id := "other", role := "user", content := some "x", created_at := 3 }]
    queryErr := none
    streamFault := none }

/-! ## The history of a session -/

/-- All the messages of a session whose role is `user` or `assistant`, by
ascending `created_at`: what the history query would select without a limit. -/
def sessionHistory (s : Store) (sessionID : String) : List ChatMessage :=
  (s.chat_messages.filter
      (fun m => m.session_id == sessionID && (m.role == "user" || m.role == "assistant"))).insertionSort
    createdLE

/-- The conversion of a stored row into a history item: the role `assistant`
becomes `model`, any other role `user`, the text is the stored content. -/
def historyItem (m : ChatMessage) : Content :=
  NewContentFromText (m.content.getD "") (if m.role = "assistant" then "model" else "user")

/-- An example store whose query fails, with two messages in its session. -/
def brokenStore : Store :=
  { chat_messages :=
      [{ session_id := "s", role := "user", content := some "one", created_at := 1 },
       { session_id := "s", role := "assistant", content := some "two", created_at := 2 }]
    queryErr := some ⟨"connection refused"⟩
    streamFault := none }

/-! ## The sampling handler -/

/-- A Go `float32`, by its IEEE 754 bit pattern. -/
structure Float32 where
  bits : Nat
deriving DecidableEq

/-- The comparison `t != 0` on a `float32`: false exactly on the two zeros, the
patterns whose 31 low bits are all zero. -/
def Float32.neZero (t : Float32) : Bool := t.bits % 2147483648 != 0

/-- The values a request context carries under the keys `ctxPromptKey`,
`ctxModelKey`, `ctxTempKey`, `ctxMaxTokKey`, `ctxStopSeqKey` and
`ctxSessionKey`; `none` when the key is absent or holds a value of another
type, the two cases in which `ctxGet` falls back to its default. -/
structure SamplingContext where
  sysPrompt : Option String
  model : Option String
  temperature : Option Float32
  maxTokens : Option Int
  stopSeq : Option (List String)
  sessionID : Option String

/-- The function `ctxGet`, on the value carried under the key. -/
def ctxGet {T : Type} (carried : Option T) (d : T) : T :=
  match carried with
  | some v => v
  | none => d

/-- The struct `GeminiSampler`; its genai client is the generation function
that `CreateMessage` takes. -/
structure GeminiSampler where
  DefaultModel : String

/-- A `genai.GenerateContentConfig`, with the fields `CreateMessage` sets; the
zero value of `MaxOutputTokens` is 0, that of `StopSequences` the nil slice. -/
structure SamplerConfig where
  Temperature : Option Float32
  MaxOutputTokens : Int
  StopSequences : List String
  SystemInstruction : Option Content

/-- An `mcp.SamplingMessage`. -/
structure SamplingMessage where
  Role : String
  Content : McpContent

/-- An `mcp.CreateMessageRequest`, with the parameters `CreateMessage` reads. -/
structure CreateMessageRequest where
  Messages : List SamplingMessage
  SystemPrompt : String

/-- An `mcp.CreateMessageResult`. -/
structure CreateMessageResult where
  Role : String
  Content : McpContent
  Model : String
  StopReason : String

/-- The model name `CreateMessage` uses. -/
def samplerModel (g : GeminiSampler) (ctx : SamplingContext) : String :=
  ctxGet ctx.model g.DefaultModel

/-- The parts `sysParts` that `CreateMessage` collects. -/
def samplerSysParts (ctx : SamplingContext) (req : CreateMessageRequest) : List Part :=
  let p := TrimSpace (ctxGet ctx.sysPrompt "")
  let sysParts : List Part := if p ≠ "" then [Part.text p] else []
  let sp := TrimSpace req.SystemPrompt
  if sp ≠ "" then sysParts ++ [Part.text sp] else sysParts

/-- The configuration `cfg` that `CreateMessage` builds. -/
def samplerConfig (ctx : SamplingContext) (req : CreateMessageRequest) : SamplerConfig :=
  let t := ctxGet ctx.temperature ⟨0⟩
  let mt := ctxGet ctx.maxTokens 0
  let stop := ctxGet ctx.stopSeq []
  let sysParts := samplerSysParts ctx req
  { Temperature := if t.neZero then some t else none
    MaxOutputTokens := if mt > 0 then mt else 0
    StopSequences := if stop.length > 0 then stop else []
    SystemInstruction :=
      if sysParts.length > 0 then some { Parts := sysParts, Role := "" } else none }

/-- The contents `CreateMessage` translates the MCP messages into. -/
def samplerContents (req : CreateMessageRequest) : List Content :=
  req.Messages.foldl
    (fun (contents : List Content) m =>
      match AsTextContent m.Content with
      | some text =>
        contents ++ [NewContentFromText text (if m.Role = "assistant" then "model" else "user")]
      | none => contents)
    []

/-- The method `GeminiSampler.CreateMessage`; `generate` is the call
`g.Client.Models.GenerateContent` with its outcome. -/
def CreateMessage (g : GeminiSampler)
    (generate : String → List Content → SamplerConfig → Except GoError GenerateContentResponse)
    (ctx : SamplingContext) (req : CreateMessageRequest) : Except GoError CreateMessageResult :=
  let modelName := samplerModel g ctx
  match generate modelName (samplerContents req) (samplerConfig ctx req) with
  | Except.error err => Except.error err
  | Except.ok resp =>
    Except.ok
      { Role := "assistant", Content := McpContent.text resp.Text, Model := modelName,
        StopReason := "end_turn" }

/-- The system instruction as the description of the bridge words it: one
segment per prompt that is not empty, with the text of that prompt, the
injected fragment first; none when both are empty. -/
def statedSystemInstruction (injected : String) (own : String) : Option Content :=
  let parts : List Part :=
    (if injected ≠ "" then [Part.text injected] else []) ++
    (if own ≠ "" then [Part.text own] else [])
  if parts = [] then none else some { Parts := parts, Role := "" }

/-- An example context that carries only a padded system prompt. -/
def paddedPromptContext : SamplingContext :=
  { sysPrompt := some " be brief ", model := none, temperature := none, maxTokens := none,
    stopSeq := none, sessionID := none }

/-! ## Reading the conversation from the record -/

/-- The turn `agentLoop` appends to the conversation for a tool call that
returned `res` and `callErr`: a function response named after the call, in the
role `tool`, with the error payload or the result payload. -/
def responseTurn (name : String) (res : Option CallToolResult) (callErr : Option GoError) :
    Content :=
  match callErr with
  | some e => NewContentFromFunctionResponse name (FunctionResponsePayload.error e.Error) "tool"
  | none =>
    NewContentFromFunctionResponse name (FunctionResponsePayload.result (extractToolText res) res)
      "tool"

/-- The turns of the tool calls of a record, in order. -/
def toolTurns (log : List Event) : List Content :=
  log.filterMap (fun ev =>
    match ev with
    | Event.callTool name _ res callErr => some (responseTurn name res callErr)
    | _ => none)

/-- The calls passed to `CallTool`, with their arguments, in order. -/
def calledCalls (log : List Event) : List FunctionCall :=
  log.filterMap (fun ev =>
    match ev with
    | Event.callTool name args _ _ => some { Name := name, Args := args }
    | _ => none)

/-- The function calls of one generation outcome. -/
def outcomeCalls (out : Except GoError GenerateContentResponse) : List FunctionCall :=
  match out with
  | Except.ok resp => resp.FunctionCalls
  | Except.error _ => []

/-- The function calls the model returned over the generation calls of a
record, concatenated in order. -/
def requestedCalls (log : List Event) : List FunctionCall :=
  (genOutcomes log).flatMap outcomeCalls

/-- A property of every generation call of a record: `φ pre c out` holds
whenever the record is `pre`, then a generation call on the conversation `c`
with the outcome `out`, then the rest. -/
def EachGen (φ : List Event → List Content → Except GoError GenerateContentResponse → Prop)
    (log : List Event) : Prop :=
  ∀ pre c out post, log = pre ++ Event.generate c out :: post → φ pre c out

/-- A turn that answers the call `call`: a function response in the role `tool`
named after the call, with an error payload or a result payload. -/
def answersCall (call : FunctionCall) (turn : Content) : Prop :=
  (∃ msg, turn =
      NewContentFromFunctionResponse call.Name (FunctionResponsePayload.error msg) "tool") ∨
  (∃ text raw, turn =
      NewContentFromFunctionResponse call.Name (FunctionResponsePayload.result text raw) "tool")

/-- An example run: two tool calls in the first round, the first of which
fails, then the answer. -/
def twoCallRun : LoopResult (List (Except GoError GenerateContentResponse)) :=
  agentLoop
    (scripted (Except.ok [])
      (fun name => if name = "a" then (none, some ⟨"down"⟩) else echoTool name))
    [asks ["a", "b"], answer "done"] "m" [NewContentFromText "earlier" "model"] "q" "" 0 false none

/-- The events one executed call adds to the record: the call of the tool and,
when there is a callback, its run. -/
def callEvents {σ : Type} (onTool : Observer σ) (step : Nat) (c : FunctionCall)
    (res : Option CallToolResult) (callErr : Option GoError) : List Event :=
  match onTool with
  | none => [Event.callTool c.Name c.Args res callErr]
  | some _ =>
    [Event.callTool c.Name c.Args res callErr, Event.onTool step c.Name c.Args res callErr]

/-- The conversations passed to the generation calls of a record, in order. -/
def genConversations (log : List Event) : List (List Content) :=
  log.filterMap (fun ev =>
    match ev with
    | Event.generate c _ => some c
    | _ => none)

/-! ## The query handler -/

/-- A row of the table `tool_invocations`, without its generated id. -/
structure ToolInvocation where
  session_id : String
  step_index : Nat
  tool_name : String
  args : JMap
  result_text : String
  raw : Option CallToolResult
  error : String

/-- A row of the table `chat_sessions`. -/
structure ChatSession where
  id : String
  title : String
  created_at : Nat
  updated_at : Nat

/-- A statement the program sends through `pool.Exec`; of a message the columns
nothing reads back, the generated id and the raw payload, are left out. -/
inductive Statement where
  | insertSession (id : String) (title : String)
  | touchSession (id : String)
  | insertMessage (session_id : String) (role : String) (content : String)
  | insertToolInvocation (row : ToolInvocation)

/-- The database with its write side: the tables, the clock that `now()` reads,
counted in ticks, the outcomes `execFaults` of the coming `pool.Exec` calls
(an error whatever its cause; success once the list is used up), and the record
`sent` of the statements sent so far, which is not part of the program. -/
structure Db where
  store : Store
  chat_sessions : List ChatSession
  tool_invocations : List ToolInvocation
  clock : Nat
  execFaults : List (Option GoError)
  sent : List Statement

/-- The effect of a statement that succeeds at the time `now`. -/
def Db.applyStatement (db : Db) (now : Nat) (stmt : Statement) : Db :=
  match stmt with
  | Statement.insertSession id title =>
    { db with chat_sessions :=
        db.chat_sessions ++ [{ id := id, title := title, created_at := now, updated_at := now }] }
  | Statement.touchSession id =>
    { db with chat_sessions :=
        db.chat_sessions.map (fun s => if s.id = id then { s with updated_at := now } else s) }
  | Statement.insertMessage session_id role content =>
    { db with store :=
        { db.store with chat_messages :=
            db.store.chat_messages ++
              [{ session_id := session_id, role := role, content := some content,
                 created_at := now }] } }
  | Statement.insertToolInvocation row =>
    { db with tool_invocations := db.tool_invocations ++ [row] }

/-- The call `pool.Exec`: the statement is recorded, the clock moves on by one
tick, and the statement takes effect unless the next outcome is an error. -/
def Db.Exec (db : Db) (stmt : Statement) : Option GoError × Db :=
  let next : Db :=
    { db with execFaults := db.execFaults.tail, sent := db.sent ++ [stmt], clock := db.clock + 1 }
  match db.execFaults with
  | some err :: _ => (some err, next)
  | _ => (none, next.applyStatement db.clock stmt)

/-- The method `Store.CreateSession`; `newID` is the value of `uuid.New()`. -/
def CreateSession (db : Db) (newID : String) (title : String) : (String × Option GoError) × Db :=
  let out := db.Exec (Statement.insertSession newID title)
  ((newID, out.1), out.2)

/-- The method `Store.TouchSession`. -/
def TouchSession (db : Db) (id : String) : Db :=
  (db.Exec (Statement.touchSession id)).2

/-- The method `Store.SaveMessage`. -/
def SaveMessage (db : Db) (sessionID : String) (role : String) (content : String) :
    Option GoError × Db :=
  db.Exec (Statement.insertMessage sessionID role content)

/-- The method `Store.SaveToolInvocation`. -/
def SaveToolInvocation (db : Db) (sessionID : String) (step : Nat) (name : String) (args : JMap)
    (resultText : String) (raw : Option CallToolResult) (errStr : String) : Option GoError × Db :=
  db.Exec
    (Statement.insertToolInvocation
      { session_id := sessionID, step_index := step, tool_name := name, args := args,
        result_text := resultText, raw := raw, error := errStr })

/-- The struct `queryReq`, the decoded body of a query. -/
structure queryReq where
  SessionID : String
  Q : String
  Prompt : String
  Model : String
  Temperature : Float32
  MaxTokens : Int
  Stop : List String
  MaxSteps : Int
  ForceTools : Bool
  TimeoutMS : Int

/-- The struct `queryResp`. -/
structure queryResp where
  SessionID : String
  Final : String
  Trace : List StepTrace
  Err : String

/-- What the handler writes: a status code with the text of `http.Error` or
with the JSON value of `writeJSON`. -/
inductive HttpResponse where
  | text (code : Nat) (msg : String)
  | json (code : Nat) (resp : queryResp)

/-- The function `firstNonEmpty`. -/
def firstNonEmpty (a b : String) : String := if a ≠ "" then a else b

/-- The world of one handler run: the world of the tool host and the model, the
database, and the counter `stepIdx` of the callback. -/
structure HandlerWorld (σ : Type) where
  ext : σ
  db : Db
  stepIdx : Nat

/-- The tool host and the model, acting on their part of the handler world. -/
def liftEnv {σ : Type} (env : Env σ) : Env (HandlerWorld σ) :=
  { ListTools := fun hw =>
      ((env.ListTools hw.ext).1, { hw with ext := (env.ListTools hw.ext).2 })
    GenerateContent := fun hw model contents cfg =>
      ((env.GenerateContent hw.ext model contents cfg).1,
        { hw with ext := (env.GenerateContent hw.ext model contents cfg).2 })
    CallTool := fun hw name args =>
      ((env.CallTool hw.ext name args).1, { hw with ext := (env.CallTool hw.ext name args).2 }) }

/-- The callback `onTool` of `handleQueryAgent` for the session `sid`. -/
def handleQueryAgent.onTool {σ : Type} (sid : String) (hw : HandlerWorld σ) (_ : Nat)
    (name : String) (args : JMap) (res : Option CallToolResult) (callErr : Option GoError) :
    HandlerWorld σ :=
  let stepIdx := hw.stepIdx + 1
  let errStr := match callErr with
    | some e => e.Error
    | none => ""
  let txt := match res with
    | some _ => extractToolText res
    | none => ""
  let db₁ := (SaveToolInvocation hw.db sid stepIdx name args txt res errStr).2
  let db₂ := if txt ≠ "" then (SaveMessage db₁ sid "tool" txt).2 else db₁
  { ext := hw.ext, db := db₂, stepIdx := stepIdx }

/-- The values `handleQueryAgent` puts into the context of the run. -/
def samplingContextOf (req : queryReq) (sid : String) : SamplingContext :=
  { sysPrompt := if req.Prompt ≠ "" then some req.Prompt else none
    model := if req.Model ≠ "" then some req.Model else none
    temperature := if req.Temperature.neZero then some req.Temperature else none
    maxTokens := if req.MaxTokens > 0 then some req.MaxTokens else none
    stopSeq := if req.Stop.length > 0 then some req.Stop else none
    sessionID := some sid }

/-- The first half of `handleQueryAgent`, up to the session: the method and the
body are checked and the session is created or its id parsed.  `body` is the
decoded body, `none` when it is no JSON; `uuidParse` is `uuid.Parse` followed by
`String()`, `newID` the value of `uuid.New()`. -/
def ensureSession (uuidParse : String → Option String) (newID : String) (db : Db)
    (method : String) (body : Option queryReq) :
    Except (HttpResponse × Db) (queryReq × String × Db) :=
  if method ≠ "POST" then Except.error (HttpResponse.text 405 "POST only", db)
  else
    match body with
    | none => Except.error (HttpResponse.text 400 "bad json", db)
    | some req =>
      if TrimSpace req.Q = "" then Except.error (HttpResponse.text 400 "missing \"q\"", db)
      else if req.SessionID = "" then
        let out := CreateSession db newID ""
        match out.1.2 with
        | some err => Except.error (HttpResponse.text 500 err.Error, out.2)
        | none => Except.ok (req, out.1.1, out.2)
      else
        match uuidParse req.SessionID with
        | none => Except.error (HttpResponse.text 400 "bad session_id", db)
        | some sid => Except.ok (req, sid, db)

/-- What a handler run leaves: the response, the world and the database, and,
when the run got that far, the context it built, the history it handed to
`agentLoop` and the result of `agentLoop`. -/
structure HandlerResult (σ : Type) where
  response : HttpResponse
  world : σ
  db : Db
  ctx : Option SamplingContext
  history : Option (List Content)
  run : Option (LoopResult (HandlerWorld σ))

/-- The second half of `handleQueryAgent`, for the request `req` and the
session `sid`. -/
def runQuery {σ : Type} (env : Env σ) (cfgModel : String) (w : σ) (db : Db) (req : queryReq)
    (sid : String) : HandlerResult σ :=
  let db₁ := TouchSession db sid
  let db₂ := (SaveMessage db₁ sid "user" req.Q).2
  let ctx := samplingContextOf req sid
  let loaded := LoadHistoryAsContents db₂.store sid 100
  match loaded.2 with
  | some err =>
    { response := HttpResponse.text 500 ("load history: " ++ err.Error), world := w, db := db₂,
      ctx := some ctx, history := none, run := none }
  | none =>
    let modelName := firstNonEmpty req.Model cfgModel
    let r := agentLoop (liftEnv env) { ext := w, db := db₂, stepIdx := 0 } modelName loaded.1
      req.Q req.Prompt req.MaxSteps req.ForceTools (some (handleQueryAgent.onTool sid))
    match r.err with
    | some loopErr =>
      { response :=
          HttpResponse.json 502
            { SessionID := sid, Final := "", Trace := r.trace, Err := loopErr.Error }
        world := r.world.ext, db := r.world.db, ctx := some ctx, history := some loaded.1,
        run := some r }
    | none =>
      { response :=
          HttpResponse.json 200
            { SessionID := sid, Final := r.finalText, Trace := r.trace, Err := "" }
        world := r.world.ext
        db := (SaveMessage r.world.db sid "assistant" r.finalText).2
        ctx := some ctx, history := some loaded.1, run := some r }

/-- The handler `App.handleQueryAgent`; `cfgModel` is the configured model. -/
def handleQueryAgent {σ : Type} (env : Env σ) (cfgModel : String)
    (uuidParse : String → Option String) (newID : String) (w : σ) (db : Db) (method : String)
    (body : Option queryReq) : HandlerResult σ :=
  match ensureSession uuidParse newID db method body with
  | Except.error (resp, db') =>
    { response := resp, world := w, db := db', ctx := none, history := none, run := none }
  | Except.ok (req, sid, db') => runQuery env cfgModel w db' req sid

/-! ## Reading the callback from the record -/

/-- A record in which the callback runs exactly once per tool call, right after
the call returned and on its name, arguments, result and error: every call of
the tool is directly followed by the run of the callback for it, and the
callback runs nowhere else. -/
def observedEachCall : List Event → Prop
  | [] => True
  | Event.callTool name args res callErr :: Event.onTool _ name' args' res' callErr' :: rest =>
    name' = name ∧ args' = args ∧ res' = res ∧ callErr' = callErr ∧ observedEachCall rest
  | Event.callTool _ _ _ _ :: _ => False
  | Event.onTool _ _ _ _ _ :: _ => False
  | Event.listTools _ :: rest => observedEachCall rest
  | Event.generate _ _ :: rest => observedEachCall rest

/-- The rows of the requests to save a tool invocation, in the order sent. -/
def invocationsSent (sent : List Statement) : List ToolInvocation :=
  sent.filterMap (fun stmt =>
    match stmt with
    | Statement.insertToolInvocation row => some row
    | _ => none)

/-- The number of runs of the callback in a record. -/
def onToolCount (log : List Event) : Nat := (log.filter Event.isOnTool).length

/-- The state of the callback and of the invocation log in step with a record:
the counter `stepIdx` is the number of tool calls of the record, and the
requests to save an invocation sent since `base` are one per tool call, in
order, with the step indices 1, 2, ... and the names of the calls. -/
def invocationsInStep {σ : Type} (base : List ToolInvocation) (hw : HandlerWorld σ)
    (log : List Event) : Prop :=
  hw.stepIdx = (toolCallNames log).length ∧
  ∃ rows : List ToolInvocation,
    invocationsSent hw.db.sent = base ++ rows ∧
    rows.map ToolInvocation.step_index = List.range' 1 (toolCallNames log).length ∧
    rows.map ToolInvocation.tool_name = toolCallNames log

/-- The start of the agent run inside `runQuery`: the world of the run and the
history handed to `agentLoop`. -/
def runStart {σ : Type} (w : σ) (db : Db) (req : queryReq) (sid : String) : HandlerWorld σ :=
  { ext := w, db := (SaveMessage (TouchSession db sid) sid "user" req.Q).2, stepIdx := 0 }

/-- A database without rows and without failures. -/
def emptyDb : Db :=
  { store := { chat_messages := [], queryErr := none, streamFault := none }
    chat_sessions := [], tool_invocations := [], clock := 0, execFaults := [], sent := [] }

/-- An example query without a session id. -/
def sampleReq : queryReq :=
  { SessionID := "", Q := "q", Prompt := "", Model := "", Temperature := ⟨0⟩, MaxTokens := 0,
    Stop := [], MaxSteps := 0, ForceTools := false, TimeoutMS := 0 }

/-- An example handler run: two tool calls in the first round, the first of
which fails, one in the second round, then the answer. -/
def sampleHandlerRun : HandlerResult (List (Except GoError GenerateContentResponse)) :=
  handleQueryAgent
    (scripted (Except.ok [])
      (fun name => if name = "a" then (none, some ⟨"down"⟩) else echoTool name))
    "gemini" (fun s => some s) "sid-1" [asks ["a", "b"], asks ["c"], answer "done"] emptyDb "POST"
    (some sampleReq)

/-- An example database: a session with one earlier exchange, no failure. -/
def priorDb : Db :=
  { store :=
      { chat_messages :=
          [{ session_id := "s1", role := "user", content := some "hi", created_at := 1 },
           { session_id := "s1", role := "assistant", content := some "hello", created_at := 2 }]
        queryErr := none
        streamFault := none }
    chat_sessions := [{ id := "s1", title := "", created_at := 0, updated_at := 2 }]
    tool_invocations := [], clock := 3, execFaults := [], sent := [] }

/-- An example query in the session of the example database. -/
def followUpReq : queryReq :=
  { SessionID := "s1", Q := "and now?", Prompt := "", Model := "", Temperature := ⟨0⟩,
    MaxTokens := 0, Stop := [], MaxSteps := 0, ForceTools := false, TimeoutMS := 0 }

/-- An example handler run: the follow-up query, answered at once. -/
def followUpRun : HandlerResult (List (Except GoError GenerateContentResponse)) :=
  handleQueryAgent (scripted (Except.ok []) echoTool) "gemini" (fun s => some s) "unused"
    [answer "fine"] priorDb "POST" (some followUpReq)

/-- An example database whose session holds an assistant message stamped later
than the clock reads. -/
def skewedDb : Db :=
  { store :=
      { chat_messages :=
          [{ session_id := "s1", role := "user", content := some "hi", created_at := 1 },
           { session_id := "s1", role := "assistant", content := some "hello", created_at := 9 }]
        queryErr := none
        streamFault := none }
    chat_sessions := [{ id := "s1", title := "", created_at := 0, updated_at := 9 }]
    tool_invocations := [], clock := 3, execFaults := [], sent := [] }

/-- An example handler run: the follow-up query on the skewed database. -/
def skewedRun : HandlerResult (List (Except GoError GenerateContentResponse)) :=
  handleQueryAgent (scripted (Except.ok []) echoTool) "gemini" (fun s => some s) "unused"
    [answer "fine"] skewedDb "POST" (some followUpReq)

/-! ## Lemmas on records -/

theorem genOutcomes_append (l₁ l₂ : List Event) :
    genOutcomes (l₁ ++ l₂) = genOutcomes l₁ ++ genOutcomes l₂ := by
  simp [genOutcomes, List.filterMap_append]

theorem toolCallNames_append (l₁ l₂ : List Event) :
    toolCallNames (l₁ ++ l₂) = toolCallNames l₁ ++ toolCallNames l₂ := by
  simp [toolCallNames, List.filterMap_append]

theorem toolEntries_append (l₁ l₂ : List Event) :
    toolEntries (l₁ ++ l₂) = toolEntries l₁ ++ toolEntries l₂ := by
  simp [toolEntries, List.filterMap_append]

theorem requestedNames_append (l₁ l₂ : List Event) :
    requestedNames (l₁ ++ l₂) = requestedNames l₁ ++ requestedNames l₂ := by
  simp [requestedNames, genOutcomes_append]

theorem genCount_append (l₁ l₂ : List Event) :
    genCount (l₁ ++ l₂) = genCount l₁ + genCount l₂ := by
  simp [genCount, genOutcomes_append]

theorem openLog_append {l₁ l₂ : List Event} :
    openLog (l₁ ++ l₂) ↔ openLog l₁ ∧ openLog l₂ := by
  unfold openLog
  rw [genOutcomes_append]
  constructor
  · intro h
    exact ⟨fun o ho => h o (List.mem_append_left _ ho), fun o ho => h o (List.mem_append_right _ ho)⟩
  · rintro ⟨h₁, h₂⟩ o ho
    rcases List.mem_append.mp ho with ho | ho
    · exact h₁ o ho
    · exact h₂ o ho

/-- The tool entries of a record carry the names passed to `CallTool`. -/
theorem toolEntries_names (l : List Event) :
    (toolEntries l).map StepTrace.CallName = toolCallNames l := by
  induction l with
  | nil => rfl
  | cons ev l ih =>
    cases ev with
    | callTool name args res callErr =>
      cases callErr <;> simp [toolEntries, toolCallNames, toolEntry] at ih ⊢ <;> exact ih
    | listTools out => simpa [toolEntries, toolCallNames] using ih
    | generate c out => simpa [toolEntries, toolCallNames] using ih
    | onTool step name args res callErr => simpa [toolEntries, toolCallNames] using ih

/-- No tool entry is a final entry. -/
theorem toolEntries_not_final (l : List Event) : ∀ t ∈ toolEntries l, t.Final = false := by
  intro t ht
  simp only [toolEntries, List.mem_filterMap] at ht
  obtain ⟨ev, _, hev⟩ := ht
  cases ev with
  | callTool name args res callErr =>
    cases callErr <;> simp [toolEntry] at hev <;> subst hev <;> rfl
  | listTools out => simp at hev
  | generate c out => simp at hev
  | onTool step name args res callErr => simp at hev

/-! ## Lemmas on the two loops -/

/-- The callback adds no generation call and no tool call to the record. -/
theorem observe_log {σ : Type} (onTool : Observer σ) (w : σ) (log : List Event) (step : Nat)
    (name : String) (args : JMap) (res : Option CallToolResult) (callErr : Option GoError) :
    genOutcomes (observe onTool w log step name args res callErr).2 = genOutcomes log ∧
    toolCallNames (observe onTool w log step name args res callErr).2 = toolCallNames log ∧
    toolEntries (observe onTool w log step name args res callErr).2 = toolEntries log := by
  cases onTool with
  | none => simp [observe]
  | some f => simp [observe, genOutcomes, toolCallNames, toolEntries, List.filterMap_append]

theorem execCalls_cons {σ : Type} (env : Env σ) (onTool : Observer σ) (step : Nat)
    (c : FunctionCall) (cs : List FunctionCall) (st : LoopState σ) :
    execCalls env onTool step (c :: cs) st =
      execCalls env onTool step cs (afterCall env onTool step c st) := by
  rw [execCalls]
  cases h : (env.CallTool st.world c.Name c.Args).1.2 <;> simp [afterCall, toolEntry, h]

theorem afterCall_log {σ : Type} (env : Env σ) (onTool : Observer σ) (step : Nat)
    (c : FunctionCall) (st : LoopState σ) :
    genOutcomes (afterCall env onTool step c st).log = genOutcomes st.log ∧
    toolCallNames (afterCall env onTool step c st).log = toolCallNames st.log ++ [c.Name] ∧
    toolEntries (afterCall env onTool step c st).log =
      toolEntries st.log ++
        [toolEntry c.Name c.Args (env.CallTool st.world c.Name c.Args).1.1
          (env.CallTool st.world c.Name c.Args).1.2] := by
  obtain ⟨h₁, h₂, h₃⟩ := observe_log onTool (env.CallTool st.world c.Name c.Args).2
    (st.log ++ [Event.callTool c.Name c.Args (env.CallTool st.world c.Name c.Args).1.1
      (env.CallTool st.world c.Name c.Args).1.2]) step c.Name c.Args
    (env.CallTool st.world c.Name c.Args).1.1 (env.CallTool st.world c.Name c.Args).1.2
  refine ⟨?_, ?_, ?_⟩
  · simp only [afterCall]
    rw [h₁, genOutcomes_append]
    simp [genOutcomes]
  · simp only [afterCall]
    rw [h₂, toolCallNames_append]
    simp [toolCallNames]
  · simp only [afterCall]
    rw [h₃, toolEntries_append]
    simp [toolEntries]

/-- The inner loop keeps the generation outcomes of the record, calls the tool
host once per call of the batch, in order, and keeps the trace in step with
the record. -/
theorem execCalls_log {σ : Type} (env : Env σ) (onTool : Observer σ) (step : Nat) :
    ∀ (cs : List FunctionCall) (st : LoopState σ),
      genOutcomes (execCalls env onTool step cs st).log = genOutcomes st.log ∧
      toolCallNames (execCalls env onTool step cs st).log =
        toolCallNames st.log ++ cs.map FunctionCall.Name ∧
      (st.trace = toolEntries st.log →
        (execCalls env onTool step cs st).trace =
          toolEntries (execCalls env onTool step cs st).log) := by
  intro cs
  induction cs with
  | nil => intro st; simp [execCalls]
  | cons c cs ih =>
    intro st
    rw [execCalls_cons]
    obtain ⟨h₁, h₂, h₃⟩ := ih (afterCall env onTool step c st)
    obtain ⟨a₁, a₂, a₃⟩ := afterCall_log env onTool step c st
    refine ⟨by rw [h₁, a₁], by rw [h₂, a₂]; simp, ?_⟩
    intro ht
    apply h₃
    rw [a₃]
    simp [afterCall, ht]

theorem rounds_zero {σ : Type} (env : Env σ) (model : String) (cfg : GenerateContentConfig)
    (onTool : Observer σ) (maxSteps : Nat) (st : LoopState σ) :
    rounds env model cfg onTool maxSteps 0 st =
      { finalText := "", trace := st.trace, err := some maxStepsError, world := st.world,
        log := st.log } := by
  rw [rounds]

theorem rounds_error {σ : Type} (env : Env σ) (model : String) (cfg : GenerateContentConfig)
    (onTool : Observer σ) (maxSteps left : Nat) (st : LoopState σ) (e : GoError)
    (h : (env.GenerateContent st.world model st.contents cfg).1 = Except.error e) :
    rounds env model cfg onTool maxSteps (left + 1) st =
      { finalText := "", trace := st.trace, err := some e
        world := (env.GenerateContent st.world model st.contents cfg).2
        log := st.log ++ [Event.generate st.contents (Except.error e)] } := by
  rw [rounds]
  simp [h]

theorem rounds_final {σ : Type} (env : Env σ) (model : String) (cfg : GenerateContentConfig)
    (onTool : Observer σ) (maxSteps left : Nat) (st : LoopState σ)
    (resp : GenerateContentResponse)
    (h : (env.GenerateContent st.world model st.contents cfg).1 = Except.ok resp)
    (hc : resp.FunctionCalls = []) :
    rounds env model cfg onTool maxSteps (left + 1) st =
      { finalText := resp.Text, trace := st.trace ++ [finalEntry resp.Text], err := none
        world := (env.GenerateContent st.world model st.contents cfg).2
        log := st.log ++ [Event.generate st.contents (Except.ok resp)] } := by
  rw [rounds]
  simp [h, hc, finalEntry]

theorem rounds_calls {σ : Type} (env : Env σ) (model : String) (cfg : GenerateContentConfig)
    (onTool : Observer σ) (maxSteps left : Nat) (st : LoopState σ)
    (resp : GenerateContentResponse)
    (h : (env.GenerateContent st.world model st.contents cfg).1 = Except.ok resp)
    (hc : resp.FunctionCalls ≠ []) :
    rounds env model cfg onTool maxSteps (left + 1) st =
      rounds env model cfg onTool maxSteps left
        (execCalls env onTool (maxSteps - (left + 1)) resp.FunctionCalls
          { world := (env.GenerateContent st.world model st.contents cfg).2
            contents := st.contents, trace := st.trace
            log := st.log ++ [Event.generate st.contents (Except.ok resp)] }) := by
  rw [rounds]
  cases hcs : resp.FunctionCalls with
  | nil => exact absurd hcs hc
  | cons c cs => simp [h, hcs]

theorem genOutcomes_generate (c : List Content) (out : Except GoError GenerateContentResponse) :
    genOutcomes [Event.generate c out] = [out] := rfl

theorem not_openLog_of_endsRun (l : List Event) (c : List Content)
    (out : Except GoError GenerateContentResponse) (h : endsRun out = true) :
    ¬ openLog (l ++ [Event.generate c out]) := by
  intro ho
  have := ho out (by rw [genOutcomes_append, genOutcomes_generate]; simp)
  rw [h] at this
  exact Bool.noConfusion this

/-- The outer loop, started in a state whose record is open and in step with
its trace: the run ends in one of the three ways of `Ending`, every requested
call was passed to the tool host, and at most `left` generation calls are
added, exactly `left` when the budget runs out. -/
theorem rounds_spec {σ : Type} (env : Env σ) (model : String) (cfg : GenerateContentConfig)
    (onTool : Observer σ) (maxSteps : Nat) :
    ∀ (left : Nat) (st : LoopState σ), openLog st.log → st.trace = toolEntries st.log →
      requestedNames st.log = toolCallNames st.log →
      Ending (rounds env model cfg onTool maxSteps left st) ∧
      requestedNames (rounds env model cfg onTool maxSteps left st).log =
        toolCallNames (rounds env model cfg onTool maxSteps left st).log ∧
      genCount (rounds env model cfg onTool maxSteps left st).log ≤ genCount st.log + left ∧
      (openLog (rounds env model cfg onTool maxSteps left st).log →
        genCount (rounds env model cfg onTool maxSteps left st).log = genCount st.log + left) := by
  intro left
  induction left with
  | zero =>
    intro st ho ht hn
    rw [rounds_zero]
    exact ⟨Ending.exhausted ho rfl rfl ht, hn, Nat.le_refl _, fun _ => rfl⟩
  | succ left ih =>
    intro st ho ht hn
    cases h : (env.GenerateContent st.world model st.contents cfg).1 with
    | error e =>
      rw [rounds_error env model cfg onTool maxSteps left st e h]
      refine ⟨Ending.failed st.log st.contents e rfl ho rfl rfl ht, ?_, ?_, ?_⟩
      · simp only [requestedNames_append, toolCallNames_append, hn]
        simp [requestedNames, genOutcomes, toolCallNames, outcomeCallNames]
      · simp only [genCount_append]
        simp [genCount, genOutcomes]
      · intro hopen
        exact absurd hopen (not_openLog_of_endsRun _ _ _ rfl)
    | ok resp =>
      by_cases hc : resp.FunctionCalls = []
      · rw [rounds_final env model cfg onTool maxSteps left st resp h hc]
        refine ⟨Ending.answered st.log st.contents resp rfl ho hc rfl rfl (by rw [ht]), ?_, ?_, ?_⟩
        · simp only [requestedNames_append, toolCallNames_append, hn]
          simp [requestedNames, genOutcomes, toolCallNames, outcomeCallNames, hc]
        · simp only [genCount_append]
          simp [genCount, genOutcomes]
        · intro hopen
          exact absurd hopen (not_openLog_of_endsRun _ _ _ (by simp [endsRun, hc]))
      · rw [rounds_calls env model cfg onTool maxSteps left st resp h hc]
        obtain ⟨e₁, e₂, e₃⟩ := execCalls_log env onTool (maxSteps - (left + 1)) resp.FunctionCalls
          { world := (env.GenerateContent st.world model st.contents cfg).2
            contents := st.contents, trace := st.trace
            log := st.log ++ [Event.generate st.contents (Except.ok resp)] }
        have hgen : genOutcomes (st.log ++ [Event.generate st.contents (Except.ok resp)]) =
            genOutcomes st.log ++ [Except.ok resp] := by
          rw [genOutcomes_append, genOutcomes_generate]
        have hopen' : openLog (execCalls env onTool (maxSteps - (left + 1)) resp.FunctionCalls
            { world := (env.GenerateContent st.world model st.contents cfg).2
              contents := st.contents, trace := st.trace
              log := st.log ++ [Event.generate st.contents (Except.ok resp)] }).log := by
          unfold openLog
          rw [e₁, hgen]
          intro o hmem
          rcases List.mem_append.mp hmem with hmem | hmem
          · exact ho o hmem
          · rw [List.mem_singleton.mp hmem]
            simp [endsRun, hc]
        have htr := e₃ (by
          simp only [toolEntries_append, ht]
          simp [toolEntries])
        have hnames : requestedNames (execCalls env onTool (maxSteps - (left + 1))
            resp.FunctionCalls
            { world := (env.GenerateContent st.world model st.contents cfg).2
              contents := st.contents, trace := st.trace
              log := st.log ++ [Event.generate st.contents (Except.ok resp)] }).log =
            toolCallNames (execCalls env onTool (maxSteps - (left + 1)) resp.FunctionCalls
            { world := (env.GenerateContent st.world model st.contents cfg).2
              contents := st.contents, trace := st.trace
              log := st.log ++ [Event.generate st.contents (Except.ok resp)] }).log := by
          rw [e₂, toolCallNames_append]
          unfold requestedNames
          rw [e₁, hgen]
          simp only [List.flatMap_append]
          have := hn
          unfold requestedNames at this
          rw [this]
          simp [toolCallNames, outcomeCallNames]
        obtain ⟨i₁, i₂, i₃, i₄⟩ := ih _ hopen' htr hnames
        have hcount : genCount (execCalls env onTool (maxSteps - (left + 1)) resp.FunctionCalls
            { world := (env.GenerateContent st.world model st.contents cfg).2
              contents := st.contents, trace := st.trace
              log := st.log ++ [Event.generate st.contents (Except.ok resp)] }).log =
            genCount st.log + 1 := by
          unfold genCount
          rw [e₁, hgen]
          simp
        rw [hcount] at i₃ i₄
        refine ⟨i₁, i₂, by omega, fun hopen => ?_⟩
        have := i₄ hopen
        omega

/-! ## Lemmas on a whole run -/

theorem agentLoop_catalog_error {σ : Type} (env : Env σ) (w : σ) (model : String)
    (history : List Content) (userQ sysPrompt : String) (maxSteps : Int) (forceTools : Bool)
    (onTool : Observer σ) (e : GoError) (h : (env.ListTools w).1 = Except.error e) :
    agentLoop env w model history userQ sysPrompt maxSteps forceTools onTool =
      { finalText := "", trace := [], err := some (wrapError "list tools: " e)
        world := (env.ListTools w).2, log := [Event.listTools (Except.error e)] } := by
  simp [agentLoop, h]

theorem agentLoop_catalog_ok {σ : Type} (env : Env σ) (w : σ) (model : String)
    (history : List Content) (userQ sysPrompt : String) (maxSteps : Int) (forceTools : Bool)
    (onTool : Observer σ) (tools : List Tool) (h : (env.ListTools w).1 = Except.ok tools) :
    agentLoop env w model history userQ sysPrompt maxSteps forceTools onTool =
      rounds env model (buildConfig (buildFunctionDecls tools).1 sysPrompt forceTools) onTool
        (budget maxSteps) (budget maxSteps)
        { world := (env.ListTools w).2, contents := history ++ [NewContentFromText userQ "user"]
          trace := [], log := [Event.listTools (Except.ok tools)] } := by
  simp [agentLoop, h, budget]

theorem clampMaxSteps_range (maxSteps : Int) :
    1 ≤ clampMaxSteps maxSteps ∧ clampMaxSteps maxSteps ≤ 16 := by
  unfold clampMaxSteps
  split_ifs with h <;> omega

theorem budget_range (maxSteps : Int) : 1 ≤ budget maxSteps ∧ budget maxSteps ≤ 16 := by
  have := clampMaxSteps_range maxSteps
  unfold budget
  omega

/-- Every run either fails at the catalog, having called nothing else, or runs
the outer loop from the seeded conversation. -/
theorem agentLoop_cases {σ : Type} (env : Env σ) (w : σ) (model : String)
    (history : List Content) (userQ sysPrompt : String) (maxSteps : Int) (forceTools : Bool)
    (onTool : Observer σ) :
    (∃ e, (env.ListTools w).1 = Except.error e ∧
      (agentLoop env w model history userQ sysPrompt maxSteps forceTools onTool).log =
        [Event.listTools (Except.error e)] ∧
      (agentLoop env w model history userQ sysPrompt maxSteps forceTools onTool).trace = [] ∧
      (agentLoop env w model history userQ sysPrompt maxSteps forceTools onTool).finalText = "" ∧
      (agentLoop env w model history userQ sysPrompt maxSteps forceTools onTool).err =
        some (wrapError "list tools: " e)) ∨
    (∃ tools, (env.ListTools w).1 = Except.ok tools ∧
      Ending (agentLoop env w model history userQ sysPrompt maxSteps forceTools onTool) ∧
      requestedNames (agentLoop env w model history userQ sysPrompt maxSteps forceTools onTool).log =
        toolCallNames (agentLoop env w model history userQ sysPrompt maxSteps forceTools onTool).log ∧
      genCount (agentLoop env w model history userQ sysPrompt maxSteps forceTools onTool).log ≤
        budget maxSteps ∧
      (openLog (agentLoop env w model history userQ sysPrompt maxSteps forceTools onTool).log →
        genCount (agentLoop env w model history userQ sysPrompt maxSteps forceTools onTool).log =
          budget maxSteps)) := by
  cases h : (env.ListTools w).1 with
  | error e =>
    left
    refine ⟨e, rfl, ?_⟩
    rw [agentLoop_catalog_error env w model history userQ sysPrompt maxSteps forceTools onTool e h]
    exact ⟨rfl, rfl, rfl, rfl⟩
  | ok tools =>
    right
    refine ⟨tools, rfl, ?_⟩
    rw [agentLoop_catalog_ok env w model history userQ sysPrompt maxSteps forceTools onTool tools h]
    have hs := rounds_spec env model (buildConfig (buildFunctionDecls tools).1 sysPrompt forceTools)
      onTool (budget maxSteps) (budget maxSteps)
      { world := (env.ListTools w).2, contents := history ++ [NewContentFromText userQ "user"]
        trace := [], log := [Event.listTools (Except.ok tools)] }
      (by intro o ho; simp [genOutcomes] at ho) rfl rfl
    have h0 : genCount [Event.listTools (Except.ok tools)] = 0 := rfl
    simp only [h0, Nat.zero_add] at hs
    exact hs

/-- In every run the trace is the tool entries of the record, followed by
final entries only. -/
theorem agentLoop_trace {σ : Type} (env : Env σ) (w : σ) (model : String)
    (history : List Content) (userQ sysPrompt : String) (maxSteps : Int) (forceTools : Bool)
    (onTool : Observer σ) :
    ∃ fin : List StepTrace,
      (agentLoop env w model history userQ sysPrompt maxSteps forceTools onTool).trace =
        toolEntries (agentLoop env w model history userQ sysPrompt maxSteps forceTools onTool).log
          ++ fin ∧
      ∀ t ∈ fin, t.Final = true := by
  rcases agentLoop_cases env w model history userQ sysPrompt maxSteps forceTools onTool with
    ⟨e, _, hlog, htrace, _, _⟩ | ⟨tools, _, hend, _, _, _⟩
  · exact ⟨[], by rw [hlog, htrace]; rfl, by simp⟩
  · cases hend with
    | answered l c resp hlog hopen hcalls htext herr htrace =>
      refine ⟨[finalEntry resp.Text], ?_, by simp [finalEntry]⟩
      rw [htrace, hlog, toolEntries_append]
      simp [toolEntries]
    | failed l c e hlog hopen htext herr htrace =>
      refine ⟨[], ?_, by simp⟩
      rw [htrace, hlog, toolEntries_append]
      simp [toolEntries]
    | exhausted hopen htext herr htrace => exact ⟨[], by rw [htrace]; simp, by simp⟩

theorem mem_genOutcomes {l : List Event} {c : List Content}
    {out : Except GoError GenerateContentResponse} (h : Event.generate c out ∈ l) :
    out ∈ genOutcomes l := by
  unfold genOutcomes
  rw [List.mem_filterMap]
  exact ⟨_, h, rfl⟩

/-- An element of a list that ends in `x` is that last element or lies before it. -/
theorem split_last {α : Type} {l pre post : List α} {x y : α}
    (h : l ++ [x] = pre ++ y :: post) : (post = [] ∧ l = pre ∧ x = y) ∨ y ∈ l := by
  rcases List.eq_nil_or_concat post with hp | ⟨post', z, hp⟩
  · subst hp
    have := List.append_inj' h rfl
    left
    exact ⟨rfl, this.1, by simpa using this.2⟩
  · subst hp
    have h' : l ++ [x] = (pre ++ y :: post') ++ [z] := by simpa using h
    have := List.append_inj' h' rfl
    right
    rw [this.1]
    simp

/-- In every run `CallTool` is invoked once per function call the model
returned, in the same order. -/
theorem agentLoop_trace_names {σ : Type} (env : Env σ) (w : σ) (model : String)
    (history : List Content) (userQ sysPrompt : String) (maxSteps : Int) (forceTools : Bool)
    (onTool : Observer σ) :
    toolCallNames (agentLoop env w model history userQ sysPrompt maxSteps forceTools onTool).log =
      requestedNames (agentLoop env w model history userQ sysPrompt maxSteps forceTools onTool).log := by
  rcases agentLoop_cases env w model history userQ sysPrompt maxSteps forceTools onTool with
    ⟨e, _, hlog, _, _, _⟩ | ⟨tools, _, _, hn, _, _⟩
  · rw [hlog]; rfl
  · exact hn.symm

/-! ## The claims on the agent loop -/

/-- C1: when the catalog fetch succeeds and the first response of the model
succeeds without function calls, the run makes exactly one generation call and
no tool call, and returns the text of that response as the final text, a trace
of length one whose only entry is final and carries that text, and no error. -/
theorem agentLoop_direct_answer {σ : Type} (env : Env σ) (w : σ) (model : String)
    (history : List Content) (userQ sysPrompt : String) (maxSteps : Int) (forceTools : Bool)
    (onTool : Observer σ) (tools : List Tool) (resp : GenerateContentResponse)
    (hcat : (env.ListTools w).1 = Except.ok tools)
    (hgen : (env.GenerateContent (env.ListTools w).2 model
      (history ++ [NewContentFromText userQ "user"])
      (buildConfig (buildFunctionDecls tools).1 sysPrompt forceTools)).1 = Except.ok resp)
    (hcalls : resp.FunctionCalls = []) :
    genCount (agentLoop env w model history userQ sysPrompt maxSteps forceTools onTool).log = 1 ∧
    toolCallNames (agentLoop env w model history userQ sysPrompt maxSteps forceTools onTool).log
      = [] ∧
    (agentLoop env w model history userQ sysPrompt maxSteps forceTools onTool).finalText
      = resp.Text ∧
    (agentLoop env w model history userQ sysPrompt maxSteps forceTools onTool).trace.length = 1 ∧
    (∀ t ∈ (agentLoop env w model history userQ sysPrompt maxSteps forceTools onTool).trace,
      t.Final = true ∧ t.Text = resp.Text) ∧
    (agentLoop env w model history userQ sysPrompt maxSteps forceTools onTool).err = none := by
  rw [agentLoop_catalog_ok env w model history userQ sysPrompt maxSteps forceTools onTool tools hcat]
  obtain ⟨k, hk⟩ : ∃ k, budget maxSteps = k + 1 :=
    ⟨budget maxSteps - 1, by have := (budget_range maxSteps).1; omega⟩
  rw [hk, rounds_final env model _ onTool (k + 1) k _ resp hgen hcalls]
  simp [genCount, genOutcomes, toolCallNames, finalEntry]

/-- C1, on the query "What is 2+2?" with an empty catalog and the automatic
calling mode: one generation call, the answer "4", a trace of length one. -/
theorem agentLoop_direct_answer_witness :
    genCount (agentLoop (scripted (Except.ok []) echoTool) [answer "4"] "m" [] "What is 2+2?" ""
      0 false none).log = 1 ∧
    toolCallNames (agentLoop (scripted (Except.ok []) echoTool) [answer "4"] "m" []
      "What is 2+2?" "" 0 false none).log = [] ∧
    (agentLoop (scripted (Except.ok []) echoTool) [answer "4"] "m" [] "What is 2+2?" ""
      0 false none).finalText = "4" ∧
    (agentLoop (scripted (Except.ok []) echoTool) [answer "4"] "m" [] "What is 2+2?" ""
      0 false none).trace.length = 1 ∧
    (∀ t ∈ (agentLoop (scripted (Except.ok []) echoTool) [answer "4"] "m" [] "What is 2+2?" ""
      0 false none).trace, t.Final = true ∧ t.Text = "4") ∧
    (agentLoop (scripted (Except.ok []) echoTool) [answer "4"] "m" [] "What is 2+2?" ""
      0 false none).err = none :=
  agentLoop_direct_answer (scripted (Except.ok []) echoTool) [answer "4"] "m" [] "What is 2+2?" ""
    0 false none [] { Text := "4", FunctionCalls := [] } rfl rfl rfl

/-- C2: in every run, the call names of the non-final trace entries are, in
order, the names of the function calls the model returned over all successful
generation rounds, and `CallTool` is invoked once per such call in that order. -/
theorem agentLoop_trace_matches_calls {σ : Type} (env : Env σ) (w : σ) (model : String)
    (history : List Content) (userQ sysPrompt : String) (maxSteps : Int) (forceTools : Bool)
    (onTool : Observer σ) :
    (((agentLoop env w model history userQ sysPrompt maxSteps forceTools onTool).trace.filter
        (fun t => !t.Final)).map StepTrace.CallName =
      requestedNames (agentLoop env w model history userQ sysPrompt maxSteps forceTools onTool).log) ∧
    toolCallNames (agentLoop env w model history userQ sysPrompt maxSteps forceTools onTool).log =
      requestedNames (agentLoop env w model history userQ sysPrompt maxSteps forceTools onTool).log := by
  have hnames :=
    agentLoop_trace_names env w model history userQ sysPrompt maxSteps forceTools onTool
  refine ⟨?_, hnames⟩
  obtain ⟨fin, htrace, hfin⟩ :=
    agentLoop_trace env w model history userQ sysPrompt maxSteps forceTools onTool
  rw [htrace, List.filter_append, ← hnames, ← toolEntries_names]
  have h₁ : (toolEntries
      (agentLoop env w model history userQ sysPrompt maxSteps forceTools onTool).log).filter
      (fun t => !t.Final) =
      toolEntries (agentLoop env w model history userQ sysPrompt maxSteps forceTools onTool).log := by
    rw [List.filter_eq_self]
    intro t ht
    simp [toolEntries_not_final _ t ht]
  have h₂ : fin.filter (fun t => !t.Final) = [] := by
    rw [List.filter_eq_nil_iff]
    intro t ht
    simp [hfin t ht]
  rw [h₁, h₂, List.append_nil]

/-- C3, as stated, fails when the catalog fetch fails: with a step budget of 1
and a model whose first response would ask for a tool, the run makes no
generation call at all and returns an empty trace. -/
theorem agentLoop_budget_counterexample :
    (∀ out ∈ [asks ["t"]].take (budget 1), endsRun out = false) ∧
    (∀ out ∈ (genOutcomes (agentLoop (scripted (Except.error ⟨"unreachable"⟩) echoTool)
      [asks ["t"]] "m" [] "q" "" 1 false none).log).take (budget 1), endsRun out = false) ∧
    genCount (agentLoop (scripted (Except.error ⟨"unreachable"⟩) echoTool)
      [asks ["t"]] "m" [] "q" "" 1 false none).log = 0 ∧
    budget 1 = 1 ∧
    (agentLoop (scripted (Except.error ⟨"unreachable"⟩) echoTool)
      [asks ["t"]] "m" [] "q" "" 1 false none).trace.length = 0 := by
  decide

/-- C3, amended: when the catalog fetch succeeds and each of the first `b`
responses of the model, `b` being the clamped step budget, succeeds with at
least one function call, the run makes exactly `b` generation calls and then
returns an empty final text, the budget error, and a trace without a final
entry that has one entry per requested call, so at least one; with
`maxSteps = 1` this is after a single round. -/
theorem agentLoop_budget_exhausted {σ : Type} (env : Env σ) (w : σ) (model : String)
    (history : List Content) (userQ sysPrompt : String) (maxSteps : Int) (forceTools : Bool)
    (onTool : Observer σ) (tools : List Tool)
    (hcat : (env.ListTools w).1 = Except.ok tools)
    (hmodel : ∀ out ∈ (genOutcomes
      (agentLoop env w model history userQ sysPrompt maxSteps forceTools onTool).log).take
        (budget maxSteps), endsRun out = false) :
    genCount (agentLoop env w model history userQ sysPrompt maxSteps forceTools onTool).log =
      budget maxSteps ∧
    (agentLoop env w model history userQ sysPrompt maxSteps forceTools onTool).finalText = "" ∧
    (agentLoop env w model history userQ sysPrompt maxSteps forceTools onTool).err =
      some maxStepsError ∧
    (agentLoop env w model history userQ sysPrompt maxSteps forceTools onTool).err ≠ none ∧
    (∀ t ∈ (agentLoop env w model history userQ sysPrompt maxSteps forceTools onTool).trace,
      t.Final = false) ∧
    (agentLoop env w model history userQ sysPrompt maxSteps forceTools onTool).trace.map
      StepTrace.CallName =
      requestedNames (agentLoop env w model history userQ sysPrompt maxSteps forceTools onTool).log ∧
    1 ≤ (agentLoop env w model history userQ sysPrompt maxSteps forceTools onTool).trace.length ∧
    (maxSteps = 1 →
      genCount (agentLoop env w model history userQ sysPrompt maxSteps forceTools onTool).log
        = 1) := by
  rcases agentLoop_cases env w model history userQ sysPrompt maxSteps forceTools onTool with
    ⟨e, he, _⟩ | ⟨tools', _, hend, hn, hle, hexact⟩
  · rw [hcat] at he
    exact Except.noConfusion he
  · have hopen : openLog
        (agentLoop env w model history userQ sysPrompt maxSteps forceTools onTool).log := by
      intro out hout
      apply hmodel out
      rw [List.take_of_length_le hle]
      exact hout
    have hcount := hexact hopen
    have hone : maxSteps = 1 →
        genCount (agentLoop env w model history userQ sysPrompt maxSteps forceTools onTool).log
          = 1 := by
      intro h1
      rw [hcount, h1]
      rfl
    cases hend with
    | answered l c resp hlog _ hcalls _ _ _ =>
      rw [hlog] at hopen
      exact absurd hopen (not_openLog_of_endsRun _ _ _ (by simp [endsRun, hcalls]))
    | failed l c e hlog _ _ _ _ =>
      rw [hlog] at hopen
      exact absurd hopen (not_openLog_of_endsRun _ _ _ rfl)
    | exhausted _ htext herr htrace =>
      have hmap : (agentLoop env w model history userQ sysPrompt maxSteps forceTools onTool).trace.map
          StepTrace.CallName =
          requestedNames
            (agentLoop env w model history userQ sysPrompt maxSteps forceTools onTool).log := by
        rw [htrace, toolEntries_names, hn]
      refine ⟨hcount, htext, herr, by rw [herr]; simp, ?_, hmap, ?_, hone⟩
      · rw [htrace]
        exact toolEntries_not_final _
      · have hlen := congrArg List.length hmap
        rw [List.length_map] at hlen
        rw [hlen]
        have hpos : 1 ≤ (genOutcomes
            (agentLoop env w model history userQ sysPrompt maxSteps forceTools onTool).log).length := by
          have := (budget_range maxSteps).1
          unfold genCount at hcount
          omega
        unfold requestedNames
        cases hg : genOutcomes
            (agentLoop env w model history userQ sysPrompt maxSteps forceTools onTool).log with
        | nil => rw [hg] at hpos; simp at hpos
        | cons out rest =>
          have hout := hopen out (by rw [hg]; simp)
          cases out with
          | error e => simp [endsRun] at hout
          | ok resp =>
            cases hfc : resp.FunctionCalls with
            | nil => simp [endsRun, hfc] at hout
            | cons c cs => simp [outcomeCallNames, hfc]

/-- C3, amended, on a step budget of 1 and a model that asks for a tool: one
generation call, the budget error, one tool entry and no final entry. -/
theorem agentLoop_budget_exhausted_witness :
    genCount (agentLoop (scripted (Except.ok []) echoTool) [asks ["t"]] "m" [] "q" "" 1 false
      none).log = budget 1 ∧
    (agentLoop (scripted (Except.ok []) echoTool) [asks ["t"]] "m" [] "q" "" 1 false
      none).finalText = "" ∧
    (agentLoop (scripted (Except.ok []) echoTool) [asks ["t"]] "m" [] "q" "" 1 false
      none).err = some maxStepsError ∧
    (agentLoop (scripted (Except.ok []) echoTool) [asks ["t"]] "m" [] "q" "" 1 false
      none).err ≠ none ∧
    (∀ t ∈ (agentLoop (scripted (Except.ok []) echoTool) [asks ["t"]] "m" [] "q" "" 1 false
      none).trace, t.Final = false) ∧
    (agentLoop (scripted (Except.ok []) echoTool) [asks ["t"]] "m" [] "q" "" 1 false
      none).trace.map StepTrace.CallName =
      requestedNames (agentLoop (scripted (Except.ok []) echoTool) [asks ["t"]] "m" [] "q" "" 1
        false none).log ∧
    1 ≤ (agentLoop (scripted (Except.ok []) echoTool) [asks ["t"]] "m" [] "q" "" 1 false
      none).trace.length ∧
    ((1 : Int) = 1 →
      genCount (agentLoop (scripted (Except.ok []) echoTool) [asks ["t"]] "m" [] "q" "" 1 false
        none).log = 1) :=
  agentLoop_budget_exhausted (scripted (Except.ok []) echoTool) [asks ["t"]] "m" [] "q" "" 1
    false none [] rfl (by decide)

/-- C4: the effective step budget is 8 for every `maxSteps` that is at most 0
or above 16 and is `maxSteps` itself from 1 to 16; every run makes at most as
many generation calls as the effective budget, so never more than 16. -/
theorem agentLoop_step_budget :
    (∀ m : Int, m ≤ 0 ∨ m > 16 → clampMaxSteps m = 8) ∧
    (∀ m : Int, 1 ≤ m → m ≤ 16 → clampMaxSteps m = m) ∧
    (∀ (σ : Type) (env : Env σ) (w : σ) (model : String) (history : List Content)
      (userQ sysPrompt : String) (maxSteps : Int) (forceTools : Bool) (onTool : Observer σ),
      (genCount (agentLoop env w model history userQ sysPrompt maxSteps forceTools onTool).log
        : Int) ≤ clampMaxSteps maxSteps ∧
      genCount (agentLoop env w model history userQ sysPrompt maxSteps forceTools onTool).log
        ≤ 16) := by
  refine ⟨?_, ?_, ?_⟩
  · intro m hm
    simp [clampMaxSteps, hm]
  · intro m h₁ h₂
    unfold clampMaxSteps
    rw [if_neg (by omega)]
  · intro σ env w model history userQ sysPrompt maxSteps forceTools onTool
    have hb := budget_range maxSteps
    have hc := clampMaxSteps_range maxSteps
    have hle : genCount
        (agentLoop env w model history userQ sysPrompt maxSteps forceTools onTool).log ≤
        budget maxSteps := by
      rcases agentLoop_cases env w model history userQ sysPrompt maxSteps forceTools onTool with
        ⟨e, _, hlog, _, _, _⟩ | ⟨tools, _, _, _, hle, _⟩
      · rw [hlog]
        exact Nat.zero_le _
      · exact hle
    unfold budget at hle hb
    omega

/-- The last element of a list that ends in `x`, seen from a split of the list. -/
theorem last_of_split {α : Type} {l pre post : List α} {x y : α}
    (h : l ++ [x] = pre ++ y :: post) : (post = [] ∧ x = y) ∨ x ∈ post := by
  rcases List.eq_nil_or_concat post with hp | ⟨post', z, hp⟩
  · subst hp
    have := List.append_inj' h rfl
    left
    exact ⟨rfl, by simpa using this.2⟩
  · subst hp
    have h' : l ++ [x] = (pre ++ y :: post') ++ [z] := by simpa using h
    have := List.append_inj' h' rfl
    right
    have hxz : x = z := by simpa using this.2
    rw [hxz]
    simp

/-- C5, as stated, fails on an error whose message is empty: the tool call of
the run returned an error, yet no entry of the trace has a non-empty `Error`. -/
theorem agentLoop_tool_error_counterexample :
    Event.callTool "t" [] none (some ⟨""⟩) ∈ emptyErrorRun.log ∧
    emptyErrorRun.trace.length = 2 ∧
    ∀ t ∈ emptyErrorRun.trace, t.Error = "" := by
  have hlog : emptyErrorRun.log =
      [Event.listTools (Except.ok []),
       Event.generate [NewContentFromText "q" "user"] (asks ["t"]),
       Event.callTool "t" [] none (some ⟨""⟩),
       Event.generate [NewContentFromText "q" "user",
         NewContentFromFunctionResponse "t" (FunctionResponsePayload.error "") "tool"]
         (answer "done")] := rfl
  refine ⟨by rw [hlog]; simp, by decide, by decide⟩

/-- C5, amended: a tool call whose `CallTool` returns an error gets a trace entry
whose `Error` field is the message of that error; the run is not aborted: every
requested call is still passed to the tool host in order, if no further call
follows the failed one in the record then the budget is used up, and the run
ends only with an answer, a catalog error, a generation error or the budget
error after all its rounds, never with the error of the tool. -/
theorem agentLoop_tool_error_recorded {σ : Type} (env : Env σ) (w : σ) (model : String)
    (history : List Content) (userQ sysPrompt : String) (maxSteps : Int) (forceTools : Bool)
    (onTool : Observer σ) :
    (∀ (pre post : List Event) (name : String) (args : JMap) (res : Option CallToolResult)
      (e : GoError),
      (agentLoop env w model history userQ sysPrompt maxSteps forceTools onTool).log =
        pre ++ Event.callTool name args res (some e) :: post →
      (agentLoop env w model history userQ sysPrompt maxSteps forceTools onTool).trace[
          (toolEntries pre).length]? =
        some { CallName := name, Args := args, Text := "", Error := e.Error, Raw := res,
               Final := false } ∧
      (post.all Event.isOnTool = true →
        (agentLoop env w model history userQ sysPrompt maxSteps forceTools onTool).err =
          some maxStepsError ∧
        genCount (agentLoop env w model history userQ sysPrompt maxSteps forceTools onTool).log =
          budget maxSteps)) ∧
    toolCallNames (agentLoop env w model history userQ sysPrompt maxSteps forceTools onTool).log =
      requestedNames (agentLoop env w model history userQ sysPrompt maxSteps forceTools onTool).log ∧
    (((agentLoop env w model history userQ sysPrompt maxSteps forceTools onTool).err = none ∧
        ∃ l c resp,
          (agentLoop env w model history userQ sysPrompt maxSteps forceTools onTool).log =
            l ++ [Event.generate c (Except.ok resp)] ∧ resp.FunctionCalls = []) ∨
      (∃ e, (agentLoop env w model history userQ sysPrompt maxSteps forceTools onTool).log =
          [Event.listTools (Except.error e)] ∧
        (agentLoop env w model history userQ sysPrompt maxSteps forceTools onTool).err =
          some (wrapError "list tools: " e)) ∨
      (∃ l c e, (agentLoop env w model history userQ sysPrompt maxSteps forceTools onTool).log =
          l ++ [Event.generate c (Except.error e)] ∧
        (agentLoop env w model history userQ sysPrompt maxSteps forceTools onTool).err = some e) ∨
      ((agentLoop env w model history userQ sysPrompt maxSteps forceTools onTool).err =
          some maxStepsError ∧
        genCount (agentLoop env w model history userQ sysPrompt maxSteps forceTools onTool).log =
          budget maxSteps)) := by
  refine ⟨?_, ?_, ?_⟩
  · intro pre post name args res e hlog
    constructor
    · obtain ⟨fin, htrace, _⟩ :=
        agentLoop_trace env w model history userQ sysPrompt maxSteps forceTools onTool
      rw [htrace, hlog, toolEntries_append]
      have hcons : toolEntries (Event.callTool name args res (some e) :: post) =
          toolEntry name args res (some e) :: toolEntries post := by
        simp [toolEntries]
      rw [hcons, List.append_assoc, List.getElem?_append_right (Nat.le_refl _)]
      simp [toolEntry]
    · intro hall
      rcases agentLoop_cases env w model history userQ sysPrompt maxSteps forceTools onTool with
        ⟨e', _, hlog', _, _, _⟩ | ⟨tools, _, hend, _, _, hexact⟩
      · rw [hlog'] at hlog
        have hmem : Event.callTool name args res (some e) ∈ [Event.listTools (Except.error e')] := by
          rw [hlog]; simp
        simp at hmem
      · cases hend with
        | answered l c resp hlog' _ _ _ _ _ =>
          rw [hlog'] at hlog
          rcases last_of_split hlog with ⟨_, h⟩ | h
          · exact Event.noConfusion h
          · have := List.all_eq_true.mp hall _ h
            simp [Event.isOnTool] at this
        | failed l c e' hlog' _ _ _ _ =>
          rw [hlog'] at hlog
          rcases last_of_split hlog with ⟨_, h⟩ | h
          · exact Event.noConfusion h
          · have := List.all_eq_true.mp hall _ h
            simp [Event.isOnTool] at this
        | exhausted hopen _ herr _ => exact ⟨herr, hexact hopen⟩
  · exact (agentLoop_trace_names env w model history userQ sysPrompt maxSteps forceTools onTool)
  · rcases agentLoop_cases env w model history userQ sysPrompt maxSteps forceTools onTool with
      ⟨e, _, hlog, _, _, herr⟩ | ⟨tools, _, hend, _, _, hexact⟩
    · exact Or.inr (Or.inl ⟨e, hlog, herr⟩)
    · cases hend with
      | answered l c resp hlog _ hcalls _ herr _ => exact Or.inl ⟨herr, l, c, resp, hlog, hcalls⟩
      | failed l c e hlog _ _ herr _ => exact Or.inr (Or.inr (Or.inl ⟨l, c, e, hlog, herr⟩))
      | exhausted hopen _ herr _ => exact Or.inr (Or.inr (Or.inr ⟨herr, hexact hopen⟩))

/-- C6: when a generation call of the run fails, nothing is called after it,
the run returns exactly the error of the model and an empty final text, and the
trace is exactly the tool entries of the rounds before, without a final entry,
and empty when the failed call is the first generation call. -/
theorem agentLoop_generation_error {σ : Type} (env : Env σ) (w : σ) (model : String)
    (history : List Content) (userQ sysPrompt : String) (maxSteps : Int) (forceTools : Bool)
    (onTool : Observer σ) (pre post : List Event) (c : List Content) (e : GoError)
    (hlog : (agentLoop env w model history userQ sysPrompt maxSteps forceTools onTool).log =
      pre ++ Event.generate c (Except.error e) :: post) :
    post = [] ∧
    (agentLoop env w model history userQ sysPrompt maxSteps forceTools onTool).err = some e ∧
    (agentLoop env w model history userQ sysPrompt maxSteps forceTools onTool).finalText = "" ∧
    (agentLoop env w model history userQ sysPrompt maxSteps forceTools onTool).trace =
      toolEntries pre ∧
    (∀ t ∈ (agentLoop env w model history userQ sysPrompt maxSteps forceTools onTool).trace,
      t.Final = false) ∧
    (genCount pre = 0 →
      (agentLoop env w model history userQ sysPrompt maxSteps forceTools onTool).trace = []) := by
  have hmem : Event.generate c (Except.error e) ∈
      (agentLoop env w model history userQ sysPrompt maxSteps forceTools onTool).log := by
    rw [hlog]; simp
  have hnames :=
    agentLoop_trace_names env w model history userQ sysPrompt maxSteps forceTools onTool
  have hclosed : ∀ l : List Event, Event.generate c (Except.error e) ∈ l → ¬ openLog l := by
    intro l hl ho
    have := ho _ (mem_genOutcomes hl)
    simp [endsRun] at this
  rcases agentLoop_cases env w model history userQ sysPrompt maxSteps forceTools onTool with
    ⟨e', _, hlog', _, _, _⟩ | ⟨tools, _, hend, _, _, _⟩
  · rw [hlog'] at hmem
    simp at hmem
  · cases hend with
    | answered l c' resp hlog' hopen _ _ _ _ =>
      rw [hlog'] at hlog
      rcases split_last hlog with ⟨_, _, h⟩ | h
      · exact Event.noConfusion h (fun _ h' => Except.noConfusion h')
      · exact absurd hopen (hclosed l h)
    | failed l c' e' hlog' hopen htext herr htrace =>
      rw [hlog'] at hlog
      rcases split_last hlog with ⟨hpost, hl, h⟩ | h
      · have he : e' = e := by
          injection h with _ h'
          injection h'
        subst hl
        subst he
        refine ⟨hpost, herr, htext, htrace, ?_, ?_⟩
        · rw [htrace]
          exact toolEntries_not_final l
        · intro hzero
          rw [htrace]
          have hreq : requestedNames l = toolCallNames l := by
            rw [hlog', requestedNames_append, toolCallNames_append] at hnames
            simpa [requestedNames, genOutcomes, toolCallNames, outcomeCallNames] using hnames.symm
          have hnil : genOutcomes l = [] := List.length_eq_zero.mp hzero
          have hcalls : toolCallNames l = [] := by
            rw [← hreq]
            unfold requestedNames
            rw [hnil]
            rfl
          rw [← toolEntries_names] at hcalls
          exact List.map_eq_nil_iff.mp hcalls
      · exact absurd hopen (hclosed l h)
    | exhausted hopen _ _ _ => exact absurd hopen (hclosed _ hmem)

/-- C6, on a run whose second generation call fails with "boom" after one tool
call: the failed call is the last event, the error is returned as it is, and
the trace is the single tool entry of the first round. -/
theorem agentLoop_generation_error_witness :
    ([] : List Event) = [] ∧
    failedRun.err = some ⟨"boom"⟩ ∧
    failedRun.finalText = "" ∧
    failedRun.trace =
      toolEntries
        [Event.listTools (Except.ok []),
         Event.generate [NewContentFromText "q" "user"] (asks ["t"]),
         Event.callTool "t" []
           (some { Content := [McpContent.text "t"], IsError := false }) none] ∧
    (∀ t ∈ failedRun.trace, t.Final = false) ∧
    (genCount
        [Event.listTools (Except.ok []),
         Event.generate [NewContentFromText "q" "user"] (asks ["t"]),
         Event.callTool "t" []
           (some { Content := [McpContent.text "t"], IsError := false }) none] = 0 →
      failedRun.trace = []) :=
  agentLoop_generation_error (scripted (Except.ok []) echoTool)
    [asks ["t"], Except.error ⟨"boom"⟩] "m" [] "q" "" 0 false none
    [Event.listTools (Except.ok []),
     Event.generate [NewContentFromText "q" "user"] (asks ["t"]),
     Event.callTool "t" [] (some { Content := [McpContent.text "t"], IsError := false }) none]
    []
    [NewContentFromText "q" "user",
     NewContentFromFunctionResponse "t"
       (FunctionResponsePayload.result "t"
         (some { Content := [McpContent.text "t"], IsError := false })) "tool"]
    ⟨"boom"⟩ rfl

/-! ## The claims on the tool host boundary -/

/-- The loop of `extractToolText`, from any accumulated `out`. -/
theorem extract_loop (cs : List McpContent) :
    ∀ out : List String,
      cs.foldl
        (fun (out : List String) c =>
          match AsTextContent c with
          | some t => if TrimSpace t ≠ "" then out ++ [t] else out
          | none => out)
        out =
      out ++ (cs.filterMap AsTextContent).filter (fun t => TrimSpace t ≠ "") := by
  induction cs with
  | nil => intro out; simp
  | cons c cs ih =>
    intro out
    rw [List.foldl_cons, ih]
    cases hc : AsTextContent c with
    | none => simp [hc]
    | some t =>
      by_cases ht : TrimSpace t = ""
      · simp [hc, ht]
      · simp [hc, ht]

/-- C7, as stated, fails on a text part that is blank: of the parts "a", " "
and "b" the program joins only "a" and "b". -/
theorem extractToolText_counterexample :
    extractToolText (some blankPartResult) = "a\nb" ∧
    joinedTexts blankPartResult = "a\n \nb" ∧
    extractToolText (some blankPartResult) ≠ joinedTexts blankPartResult := by
  decide

/-- C7, amended: for a non-nil result `extractToolText` returns the texts of
the text parts that are not empty or white space only, in the order of the
result, joined by a single newline, the non-textual parts and the blank text
parts being ignored; for the nil result it returns the empty string. -/
theorem extractToolText_spec :
    (∀ r : CallToolResult,
      extractToolText (some r) =
        Join ((r.Content.filterMap AsTextContent).filter (fun t => TrimSpace t ≠ "")) "\n") ∧
    extractToolText none = "" := by
  refine ⟨?_, rfl⟩
  intro r
  simp only [extractToolText]
  rw [extract_loop]
  simp

/-- The loop of `buildFunctionDecls`, from any accumulated pair: the
declarations it appends. -/
theorem buildFunctionDecls_loop_decls (tools : List Tool) :
    ∀ acc : List FunctionDeclaration × (String → Option Tool),
      (tools.foldl buildFunctionDeclsStep acc).1 =
        acc.1 ++ (tools.filter (fun t => toolName t ≠ "")).map
          (fun t =>
            { Name := toolName t, Description := toolDescription t
              ParametersJsonSchema := toolSchema t }) := by
  induction tools with
  | nil => intro acc; simp
  | cons t tools ih =>
    intro acc
    rw [List.foldl_cons, ih]
    by_cases hn : toolName t = ""
    · have : buildFunctionDeclsStep acc t = acc := by
        unfold toolName at hn
        simp [buildFunctionDeclsStep, hn]
      rw [this]
      simp [hn]
    · have : (buildFunctionDeclsStep acc t).1 =
          acc.1 ++ [{ Name := toolName t, Description := toolDescription t
                      ParametersJsonSchema := toolSchema t }] := by
        have hn' := hn
        unfold toolName at hn'
        simp [buildFunctionDeclsStep, hn', toolName, toolDescription, toolSchema]
      rw [this]
      simp [hn]

/-- The loop of `buildFunctionDecls`, from any accumulated pair: the keys of
the lookup and what they map to. -/
theorem buildFunctionDecls_loop_index (tools : List Tool) :
    ∀ (acc : List FunctionDeclaration × (String → Option Tool)) (k : String),
      (((tools.foldl buildFunctionDeclsStep acc).2 k).isSome ↔
        (acc.2 k).isSome ∨ ∃ t ∈ tools, toolName t ≠ "" ∧ toolName t = k) ∧
      ∀ t, (tools.foldl buildFunctionDeclsStep acc).2 k = some t →
        acc.2 k = some t ∨ (t ∈ tools ∧ toolName t = k) := by
  induction tools with
  | nil => intro acc k; simp
  | cons t tools ih =>
    intro acc k
    rw [List.foldl_cons]
    obtain ⟨h₁, h₂⟩ := ih (buildFunctionDeclsStep acc t) k
    by_cases hn : toolName t = ""
    · have hstep : buildFunctionDeclsStep acc t = acc := by
        unfold toolName at hn
        simp [buildFunctionDeclsStep, hn]
      rw [hstep] at h₁ h₂ ⊢
      constructor
      · rw [h₁]
        constructor
        · rintro (h | ⟨u, hu, hune, huk⟩)
          · exact Or.inl h
          · exact Or.inr ⟨u, List.mem_cons_of_mem _ hu, hune, huk⟩
        · rintro (h | ⟨u, hu, hune, huk⟩)
          · exact Or.inl h
          · rcases List.mem_cons.mp hu with rfl | hu
            · exact absurd hn hune
            · exact Or.inr ⟨u, hu, hune, huk⟩
      · intro u hu
        rcases h₂ u hu with h | ⟨hmem, hk⟩
        · exact Or.inl h
        · exact Or.inr ⟨List.mem_cons_of_mem _ hmem, hk⟩
    · have hstep : (buildFunctionDeclsStep acc t).2 =
          fun k => if k = toolName t then some t else acc.2 k := by
        have hn' := hn
        unfold toolName at hn'
        simp [buildFunctionDeclsStep, hn', toolName]
      rw [hstep] at h₁ h₂
      constructor
      · rw [h₁]
        by_cases hk : k = toolName t
        · simp only [hk, if_true, Option.isSome_some, true_or, true_iff]
          exact Or.inr ⟨t, List.mem_cons_self _ _, hn, rfl⟩
        · simp only [hk, if_false]
          constructor
          · rintro (h | ⟨u, hu, hune, huk⟩)
            · exact Or.inl h
            · exact Or.inr ⟨u, List.mem_cons_of_mem _ hu, hune, huk⟩
          · rintro (h | ⟨u, hu, hune, huk⟩)
            · exact Or.inl h
            · rcases List.mem_cons.mp hu with rfl | hu
              · exact absurd huk.symm hk
              · exact Or.inr ⟨u, hu, hune, huk⟩
      · intro u hu
        rcases h₂ u hu with h | ⟨hmem, hk⟩
        · by_cases hk : k = toolName t
          · simp only [hk, if_true, Option.some.injEq] at h
            subst h
            exact Or.inr ⟨List.mem_cons_self _ _, hk.symm⟩
          · simp only [hk, if_false] at h
            exact Or.inl h
        · exact Or.inr ⟨List.mem_cons_of_mem _ hmem, hk⟩

/-- C8: the declarations of `buildFunctionDecls` are, in input order, one per
input tool whose extracted name is not empty, each with the name, the
description and the input schema of that tool as they are; the other tools are
dropped; the keys of the lookup are exactly the declared names, and each key
maps to an input tool of that name. -/
theorem buildFunctionDecls_spec (tools : List Tool) :
    (buildFunctionDecls tools).1 =
      (tools.filter (fun t => toolName t ≠ "")).map
        (fun t =>
          { Name := toolName t, Description := toolDescription t
            ParametersJsonSchema := toolSchema t }) ∧
    (∀ k : String, ((buildFunctionDecls tools).2 k).isSome ↔
      k ∈ (buildFunctionDecls tools).1.map FunctionDeclaration.Name) ∧
    (∀ (k : String) (t : Tool), (buildFunctionDecls tools).2 k = some t →
      t ∈ tools ∧ toolName t = k) := by
  have hdecls := buildFunctionDecls_loop_decls tools ([], fun _ => none)
  simp only [List.nil_append] at hdecls
  refine ⟨hdecls, ?_, ?_⟩
  · intro k
    have := (buildFunctionDecls_loop_index tools ([], fun _ => none) k).1
    unfold buildFunctionDecls
    rw [this, hdecls]
    simp only [Option.isSome_none, Bool.false_eq_true, false_or, List.map_map, List.mem_map,
      List.mem_filter, Function.comp]
    constructor
    · rintro ⟨t, ht, hne, hk⟩
      exact ⟨t, ⟨ht, by simpa using hne⟩, hk⟩
    · rintro ⟨t, ⟨ht, hne⟩, hk⟩
      exact ⟨t, ht, by simpa using hne, hk⟩
  · intro k t ht
    rcases (buildFunctionDecls_loop_index tools ([], fun _ => none) k).2 t ht with h | h
    · simp at h
    · exact h

/-! ## The claims on the conversation store -/

theorem clampLimit_range (limit : Int) : 1 ≤ clampLimit limit ∧ clampLimit limit ≤ 1000 := by
  unfold clampLimit
  split_ifs with h <;> omega

/-- The rows the history query selects belong to the session, have the role
`user` or `assistant`, and come by ascending timestamp. -/
theorem selectHistory_spec (s : Store) (sessionID : String) (limit : Int) :
    (selectHistory s sessionID limit).Sorted createdLE ∧
    (selectHistory s sessionID limit).length ≤ limit.toNat ∧
    ∀ m ∈ selectHistory s sessionID limit,
      m ∈ s.chat_messages ∧ m.session_id = sessionID ∧ (m.role = "user" ∨ m.role = "assistant") := by
  refine ⟨?_, ?_, ?_⟩
  · exact List.Pairwise.sublist (List.take_sublist _ _) (List.sorted_insertionSort createdLE _)
  · unfold selectHistory
    rw [List.length_take]
    exact Nat.min_le_left _ _
  · intro m hm
    have h₁ := List.mem_of_mem_take hm
    have h₂ := (List.perm_insertionSort createdLE _).mem_iff.mp h₁
    rw [List.mem_filter] at h₂
    obtain ⟨hmem, hcond⟩ := h₂
    simp only [Bool.and_eq_true, Bool.or_eq_true, beq_iff_eq] at hcond
    exact ⟨hmem, hcond.1, hcond.2⟩

/-- The scan loop over rows that all have a content: every row is converted, in
order, and the error is the error of the stream. -/
theorem scanRows_ok (rowsErr : Option GoError) (rows : List ChatMessage) :
    ∀ out : List Content, (∀ m ∈ rows, m.content ≠ none) →
      scanRows rowsErr rows out =
        (out ++ rows.map (fun m =>
          NewContentFromText (m.content.getD "") (if m.role = "assistant" then "model" else "user")),
          rowsErr) := by
  induction rows with
  | nil => intro out _; simp [scanRows]
  | cons row rows ih =>
    intro out h
    cases hc : row.content with
    | none => exact absurd hc (h row (List.mem_cons_self _ _))
    | some text =>
      rw [scanRows]
      simp only [Scan, hc]
      rw [ih _ (fun m hm => h m (List.mem_cons_of_mem _ hm))]
      simp [hc]

/-- The scan loop over rows of which one has no content: nothing is returned. -/
theorem scanRows_null (rowsErr : Option GoError) (rows : List ChatMessage) :
    ∀ out : List Content, (∃ m ∈ rows, m.content = none) →
      (scanRows rowsErr rows out).1 = [] := by
  induction rows with
  | nil => intro out h; simp at h
  | cons row rows ih =>
    intro out h
    cases hc : row.content with
    | none =>
      rw [scanRows]
      simp [Scan, hc]
    | some text =>
      rw [scanRows]
      simp only [Scan, hc]
      apply ih
      obtain ⟨m, hm, hmc⟩ := h
      rcases List.mem_cons.mp hm with rfl | hm
      · rw [hc] at hmc
        exact Option.noConfusion hmc
      · exact ⟨m, hm, hmc⟩

/-- What the scan loop returns from an empty `out`: the conversion of all the
rows it was given, or nothing. -/
theorem scanRows_cases (rowsErr : Option GoError) (rows : List ChatMessage) :
    ((∀ m ∈ rows, m.content ≠ none) ∧
      scanRows rowsErr rows [] =
        (rows.map (fun m =>
          NewContentFromText (m.content.getD "") (if m.role = "assistant" then "model" else "user")),
          rowsErr)) ∨
    (scanRows rowsErr rows []).1 = [] := by
  by_cases h : ∀ m ∈ rows, m.content ≠ none
  · left
    refine ⟨h, ?_⟩
    rw [scanRows_ok rowsErr rows [] h]
    simp
  · right
    apply scanRows_null
    by_contra hcon
    apply h
    intro m hm hmc
    exact hcon ⟨m, hm, hmc⟩

/-- Every result of `LoadHistoryAsContents` is the conversion of a leading part
of the selected rows, all of them with a content; it is all of them, with no
error, when the store has no failure and no row without content. -/
theorem LoadHistoryAsContents_rows (s : Store) (sessionID : String) (limit : Int) :
    ∃ k : Nat,
      (∀ m ∈ (selectHistory s sessionID (clampLimit limit)).take k, m.content ≠ none) ∧
      (LoadHistoryAsContents s sessionID limit).1 =
        ((selectHistory s sessionID (clampLimit limit)).take k).map (fun m =>
          NewContentFromText (m.content.getD "")
            (if m.role = "assistant" then "model" else "user")) ∧
      (s.queryErr = none → s.streamFault = none → (∀ m ∈ s.chat_messages, m.content ≠ none) →
        (selectHistory s sessionID (clampLimit limit)).take k =
          selectHistory s sessionID (clampLimit limit) ∧
        (LoadHistoryAsContents s sessionID limit).2 = none) := by
  have hnone : ∀ h : (LoadHistoryAsContents s sessionID limit).1 = [],
      (s.queryErr = none → s.streamFault = none → (∀ m ∈ s.chat_messages, m.content ≠ none) →
        False) →
      ∃ k : Nat,
      (∀ m ∈ (selectHistory s sessionID (clampLimit limit)).take k, m.content ≠ none) ∧
      (LoadHistoryAsContents s sessionID limit).1 =
        ((selectHistory s sessionID (clampLimit limit)).take k).map (fun m =>
          NewContentFromText (m.content.getD "")
            (if m.role = "assistant" then "model" else "user")) ∧
      (s.queryErr = none → s.streamFault = none → (∀ m ∈ s.chat_messages, m.content ≠ none) →
        (selectHistory s sessionID (clampLimit limit)).take k =
          selectHistory s sessionID (clampLimit limit) ∧
        (LoadHistoryAsContents s sessionID limit).2 = none) := by
    intro h hfalse
    exact ⟨0, by simp, by rw [h]; simp, fun a b c => (hfalse a b c).elim⟩
  have hopt : ∀ {α : Type} (o : Option α), o = none ∨ ∃ a, o = some a := by
    intro α o
    cases o with
    | none => exact Or.inl rfl
    | some a => exact Or.inr ⟨a, rfl⟩
  rcases hopt s.queryErr with hq | ⟨err, hq⟩
  swap
  · apply hnone
    · simp [LoadHistoryAsContents, hq]
    · intro h
      rw [hq] at h
      exact Option.noConfusion h
  rcases hopt s.streamFault with hf | ⟨⟨k, err⟩, hf⟩
  swap
  · have hload : LoadHistoryAsContents s sessionID limit =
        scanRows (some err) ((selectHistory s sessionID (clampLimit limit)).take k) [] := by
      simp [LoadHistoryAsContents, hq, hf]
    rcases scanRows_cases (some err) ((selectHistory s sessionID (clampLimit limit)).take k) with
      ⟨hall, heq⟩ | hnil
    · refine ⟨k, hall, by rw [hload, heq], ?_⟩
      intro _ h
      rw [hf] at h
      exact Option.noConfusion h
    · apply hnone
      · rw [hload, hnil]
      · intro _ h
        rw [hf] at h
        exact Option.noConfusion h
  have hload : LoadHistoryAsContents s sessionID limit =
      scanRows none (selectHistory s sessionID (clampLimit limit)) [] := by
    simp [LoadHistoryAsContents, hq, hf]
  by_cases hsel : ∀ m ∈ selectHistory s sessionID (clampLimit limit), m.content ≠ none
  · have heq := scanRows_ok none (selectHistory s sessionID (clampLimit limit)) [] hsel
    refine ⟨(selectHistory s sessionID (clampLimit limit)).length, ?_, ?_, ?_⟩
    · rw [List.take_length]
      exact hsel
    · rw [List.take_length, hload, heq]
      simp
    · intro _ _ _
      rw [List.take_length, hload, heq]
      exact ⟨rfl, rfl⟩
  · apply hnone
    · rw [hload]
      apply scanRows_null
      by_contra hcon
      apply hsel
      intro m hm hmc
      exact hcon ⟨m, hm, hmc⟩
    · intro _ _ hall
      apply hsel
      intro m hm
      exact hall m ((selectHistory_spec s sessionID (clampLimit limit)).2.2 m hm).1

/-- C9: for every store, session and limit, the items `LoadHistoryAsContents`
returns are, position by position, the conversion of stored rows of the session
whose role is `user` or `assistant` (never `tool` or `system`), taken by
ascending creation timestamp: the text of an item is the stored content, its
role is `model` for a stored `assistant` and `user` for a stored `user`; on a
store without failure these rows are all the selected ones and no error is
returned. -/
theorem LoadHistoryAsContents_spec (s : Store) (sessionID : String) (limit : Int) :
    ∃ rows : List ChatMessage,
      List.Forall₂
        (fun (m : ChatMessage) (item : Content) =>
          ∃ text, m.content = some text ∧
            item = NewContentFromText text (if m.role = "assistant" then "model" else "user"))
        rows (LoadHistoryAsContents s sessionID limit).1 ∧
      rows.Sorted createdLE ∧
      (∀ m ∈ rows, m ∈ s.chat_messages ∧ m.session_id = sessionID ∧
        (m.role = "user" ∨ m.role = "assistant") ∧ m.role ≠ "tool" ∧ m.role ≠ "system") ∧
      (∀ item ∈ (LoadHistoryAsContents s sessionID limit).1,
        item.Role = "user" ∨ item.Role = "model") ∧
      (s.queryErr = none → s.streamFault = none → (∀ m ∈ s.chat_messages, m.content ≠ none) →
        rows = selectHistory s sessionID (clampLimit limit) ∧
        (LoadHistoryAsContents s sessionID limit).2 = none) := by
  obtain ⟨k, hcontent, hout, hfull⟩ := LoadHistoryAsContents_rows s sessionID limit
  obtain ⟨hsorted, _, hsel⟩ := selectHistory_spec s sessionID (clampLimit limit)
  refine ⟨(selectHistory s sessionID (clampLimit limit)).take k, ?_, ?_, ?_, ?_, hfull⟩
  · rw [hout, List.forall₂_map_right_iff, List.forall₂_same]
    intro m hm
    cases hc : m.content with
    | none => exact absurd hc (hcontent m hm)
    | some text => exact ⟨text, rfl, rfl⟩
  · exact List.Pairwise.sublist (List.take_sublist _ _) hsorted
  · intro m hm
    obtain ⟨h₁, h₂, h₃⟩ := hsel m (List.mem_of_mem_take hm)
    refine ⟨h₁, h₂, h₃, ?_, ?_⟩
    · rcases h₃ with h | h <;> rw [h] <;> decide
    · rcases h₃ with h | h <;> rw [h] <;> decide
  · intro item hitem
    rw [hout, List.mem_map] at hitem
    obtain ⟨m, _, rfl⟩ := hitem
    by_cases h : m.role = "assistant"
    · right
      simp [NewContentFromText, h]
    · left
      simp [NewContentFromText, h]

/-- The history of the example store for its session "s": the assistant
message, written first, then the user message; the tool message, the system
message and the message of the other session are left out. -/
theorem LoadHistoryAsContents_sample :
    LoadHistoryAsContents sampleStore "s" 0 =
      ([NewContentFromText "welcome" "model", NewContentFromText "hi" "user"], none) := by
  decide

/-- C10: the effective row limit is 50 for every `limit` that is at most 0 or
above 1000 and is `limit` itself from 1 to 1000; the query selects at most that
many rows and `LoadHistoryAsContents` returns at most that many items. -/
theorem LoadHistoryAsContents_limit :
    (∀ limit : Int, limit ≤ 0 ∨ limit > 1000 → clampLimit limit = 50) ∧
    (∀ limit : Int, 1 ≤ limit → limit ≤ 1000 → clampLimit limit = limit) ∧
    (∀ (s : Store) (sessionID : String) (limit : Int),
      ((selectHistory s sessionID (clampLimit limit)).length : Int) ≤ clampLimit limit ∧
      (((LoadHistoryAsContents s sessionID limit).1).length : Int) ≤ clampLimit limit) := by
  refine ⟨?_, ?_, ?_⟩
  · intro limit h
    simp [clampLimit, h]
  · intro limit h₁ h₂
    unfold clampLimit
    rw [if_neg (by omega)]
  · intro s sessionID limit
    obtain ⟨k, _, hout, _⟩ := LoadHistoryAsContents_rows s sessionID limit
    have hlen := (selectHistory_spec s sessionID (clampLimit limit)).2.1
    have hrange := clampLimit_range limit
    have hout' : ((LoadHistoryAsContents s sessionID limit).1).length ≤
        (selectHistory s sessionID (clampLimit limit)).length := by
      rw [hout, List.length_map, List.length_take]
      exact Nat.min_le_right _ _
    omega

/-! ## The shape of a result -/

/-- Every result is of one of two shapes: tool entries followed by the final
entry of the returned text, without error; or tool entries only, with an error
and an empty final text. -/
theorem agentLoop_shape {σ : Type} (env : Env σ) (w : σ) (model : String)
    (history : List Content) (userQ sysPrompt : String) (maxSteps : Int) (forceTools : Bool)
    (onTool : Observer σ) :
    ∃ l : List Event,
      ((agentLoop env w model history userQ sysPrompt maxSteps forceTools onTool).trace =
          toolEntries l ++
            [finalEntry
              (agentLoop env w model history userQ sysPrompt maxSteps forceTools onTool).finalText] ∧
        (agentLoop env w model history userQ sysPrompt maxSteps forceTools onTool).err = none) ∨
      ((agentLoop env w model history userQ sysPrompt maxSteps forceTools onTool).trace =
          toolEntries l ∧
        (agentLoop env w model history userQ sysPrompt maxSteps forceTools onTool).err ≠ none ∧
        (agentLoop env w model history userQ sysPrompt maxSteps forceTools onTool).finalText = "") := by
  rcases agentLoop_cases env w model history userQ sysPrompt maxSteps forceTools onTool with
    ⟨e, _, _, htrace, htext, herr⟩ | ⟨tools, _, hend, _, _, _⟩
  · exact ⟨[], Or.inr ⟨by rw [htrace]; rfl, by rw [herr]; simp, htext⟩⟩
  · cases hend with
    | answered l c resp hlog hopen hcalls htext herr htrace =>
      exact ⟨l, Or.inl ⟨by rw [htrace, htext], herr⟩⟩
    | failed l c e hlog hopen htext herr htrace =>
      exact ⟨l, Or.inr ⟨htrace, by rw [herr]; simp, htext⟩⟩
    | exhausted hopen htext herr htrace =>
      exact ⟨_, Or.inr ⟨htrace, by rw [herr]; simp, htext⟩⟩

/-- C15: in every result of `agentLoop` at most one trace entry is final, a
final entry is the last entry and has an empty `CallName`; the error is nil if
and only if the trace ends with a final entry; with a nil error the final text
is the `Text` of that last entry, with an error it is the empty string. -/
theorem agentLoop_result_invariant {σ : Type} (env : Env σ) (w : σ) (model : String)
    (history : List Content) (userQ sysPrompt : String) (maxSteps : Int) (forceTools : Bool)
    (onTool : Observer σ) :
    ((agentLoop env w model history userQ sysPrompt maxSteps forceTools onTool).trace.filter
      (fun t => t.Final)).length ≤ 1 ∧
    (∀ (i : Nat) (t : StepTrace),
      (agentLoop env w model history userQ sysPrompt maxSteps forceTools onTool).trace[i]? = some t →
      t.Final = true →
      i + 1 = (agentLoop env w model history userQ sysPrompt maxSteps forceTools onTool).trace.length ∧
      t.CallName = "") ∧
    ((agentLoop env w model history userQ sysPrompt maxSteps forceTools onTool).err = none ↔
      ∃ t, (agentLoop env w model history userQ sysPrompt maxSteps forceTools onTool).trace.getLast?
        = some t ∧ t.Final = true) ∧
    ((agentLoop env w model history userQ sysPrompt maxSteps forceTools onTool).err = none →
      ∃ t, (agentLoop env w model history userQ sysPrompt maxSteps forceTools onTool).trace.getLast?
        = some t ∧
        (agentLoop env w model history userQ sysPrompt maxSteps forceTools onTool).finalText
          = t.Text) ∧
    ((agentLoop env w model history userQ sysPrompt maxSteps forceTools onTool).err ≠ none →
      (agentLoop env w model history userQ sysPrompt maxSteps forceTools onTool).finalText = "") := by
  have hfilter : ∀ l : List Event, (toolEntries l).filter (fun t => t.Final) = [] := by
    intro l
    rw [List.filter_eq_nil_iff]
    intro t ht
    simp [toolEntries_not_final l t ht]
  obtain ⟨l, ⟨htrace, herr⟩ | ⟨htrace, herr, htext⟩⟩ :=
    agentLoop_shape env w model history userQ sysPrompt maxSteps forceTools onTool
  · refine ⟨?_, ?_, ?_, ?_, fun h => absurd herr h⟩
    · rw [htrace, List.filter_append, hfilter]
      simp [finalEntry]
    · intro i t hi hfinal
      rw [htrace] at hi ⊢
      by_cases hlt : i < (toolEntries l).length
      · rw [List.getElem?_append_left hlt] at hi
        have hmem := List.getElem?_mem hi
        rw [toolEntries_not_final l t hmem] at hfinal
        exact Bool.noConfusion hfinal
      · rw [List.getElem?_append_right (Nat.le_of_not_lt hlt)] at hi
        have hzero : i - (toolEntries l).length = 0 := by
          by_contra hne
          obtain ⟨k, hk⟩ := Nat.exists_eq_succ_of_ne_zero hne
          rw [hk] at hi
          simp at hi
        rw [hzero] at hi
        simp only [List.getElem?_cons_zero, Option.some.injEq] at hi
        subst hi
        refine ⟨?_, rfl⟩
        simp only [List.length_append, List.length_singleton]
        omega
    · constructor
      · intro _
        exact ⟨_, by rw [htrace, List.getLast?_concat], rfl⟩
      · intro _
        exact herr
    · intro _
      exact ⟨_, by rw [htrace, List.getLast?_concat], rfl⟩
  · refine ⟨?_, ?_, ?_, fun h => absurd h herr, fun _ => htext⟩
    · rw [htrace, hfilter]
      simp
    · intro i t hi hfinal
      rw [htrace] at hi
      have hmem := List.getElem?_mem hi
      rw [toolEntries_not_final l t hmem] at hfinal
      exact Bool.noConfusion hfinal
    · constructor
      · intro h
        exact absurd h herr
      · rintro ⟨t, hlast, hfinal⟩
        rw [htrace] at hlast
        have hmem := List.mem_of_getLast?_eq_some hlast
        rw [toolEntries_not_final l t hmem] at hfinal
        exact Bool.noConfusion hfinal

/-! ## The claim on the rows a limit leaves out -/

theorem selectHistory_eq_take (s : Store) (sessionID : String) (limit : Int) :
    selectHistory s sessionID limit = (sessionHistory s sessionID).take limit.toNat := rfl

/-- The scan loop over rows of which one has no content returns an error. -/
theorem scanRows_null_err (rowsErr : Option GoError) (rows : List ChatMessage) :
    ∀ out : List Content, (∃ m ∈ rows, m.content = none) →
      (scanRows rowsErr rows out).2 ≠ none := by
  induction rows with
  | nil => intro out h; simp at h
  | cons row rows ih =>
    intro out h
    cases hc : row.content with
    | none =>
      rw [scanRows]
      simp [Scan, hc]
    | some text =>
      rw [scanRows]
      simp only [Scan, hc]
      apply ih
      obtain ⟨m, hm, hmc⟩ := h
      rcases List.mem_cons.mp hm with rfl | hm
      · rw [hc] at hmc
        exact Option.noConfusion hmc
      · exact ⟨m, hm, hmc⟩

/-- A call of `LoadHistoryAsContents` that returns no error returns the
conversion of all the rows the query selects. -/
theorem LoadHistoryAsContents_of_no_error (s : Store) (sessionID : String) (limit : Int)
    (herr : (LoadHistoryAsContents s sessionID limit).2 = none) :
    (LoadHistoryAsContents s sessionID limit).1 =
      ((sessionHistory s sessionID).take (clampLimit limit).toNat).map historyItem := by
  have hopt : ∀ {α : Type} (o : Option α), o = none ∨ ∃ a, o = some a := by
    intro α o
    cases o with
    | none => exact Or.inl rfl
    | some a => exact Or.inr ⟨a, rfl⟩
  rcases hopt s.queryErr with hq | ⟨err, hq⟩
  swap
  · simp [LoadHistoryAsContents, hq] at herr
  rcases hopt s.streamFault with hf | ⟨⟨k, err⟩, hf⟩
  swap
  · have hload : LoadHistoryAsContents s sessionID limit =
        scanRows (some err) ((selectHistory s sessionID (clampLimit limit)).take k) [] := by
      simp [LoadHistoryAsContents, hq, hf]
    rw [hload] at herr
    by_cases hall : ∀ m ∈ (selectHistory s sessionID (clampLimit limit)).take k, m.content ≠ none
    · rw [scanRows_ok _ _ [] hall] at herr
      exact Option.noConfusion herr
    · exfalso
      apply scanRows_null_err (some err) _ [] _ herr
      by_contra hcon
      apply hall
      intro m hm hmc
      exact hcon ⟨m, hm, hmc⟩
  have hload : LoadHistoryAsContents s sessionID limit =
      scanRows none (selectHistory s sessionID (clampLimit limit)) [] := by
    simp [LoadHistoryAsContents, hq, hf]
  rw [hload] at herr ⊢
  by_cases hall : ∀ m ∈ selectHistory s sessionID (clampLimit limit), m.content ≠ none
  · rw [scanRows_ok _ _ [] hall, selectHistory_eq_take]
    simp only [List.nil_append]
    rfl
  · exfalso
    apply scanRows_null_err none _ [] _ herr
    by_contra hcon
    apply hall
    intro m hm hmc
    exact hcon ⟨m, hm, hmc⟩

theorem sessionHistory_sorted (s : Store) (sessionID : String) :
    (sessionHistory s sessionID).Sorted createdLE :=
  List.sorted_insertionSort createdLE _

/-- C17, as stated, fails when the query fails: the session of the example store
holds two messages, more than the limit 1, and nothing is returned. -/
theorem LoadHistoryAsContents_oldest_counterexample :
    (sessionHistory brokenStore "s").length = 2 ∧
    clampLimit 1 = 1 ∧
    (LoadHistoryAsContents brokenStore "s" 1).1 = [] ∧
    (LoadHistoryAsContents brokenStore "s" 1).2 = some ⟨"connection refused"⟩ := by
  decide

/-- C17, amended: a call of `LoadHistoryAsContents` that returns no error returns
the first `L` messages of the ascending sequence of the user and assistant
messages of the session, `L` being the effective limit; when the session holds
more than `L`, these are exactly `L` messages and every message left out is at
least as recent as every returned one; when it holds at most `L`, all of them
are returned. -/
theorem LoadHistoryAsContents_oldest (s : Store) (sessionID : String) (limit : Int)
    (herr : (LoadHistoryAsContents s sessionID limit).2 = none) :
    (LoadHistoryAsContents s sessionID limit).1 =
      ((sessionHistory s sessionID).take (clampLimit limit).toNat).map historyItem ∧
    ((clampLimit limit).toNat < (sessionHistory s sessionID).length →
      (LoadHistoryAsContents s sessionID limit).1.length = (clampLimit limit).toNat ∧
      ∀ m ∈ (sessionHistory s sessionID).take (clampLimit limit).toNat,
        ∀ m' ∈ (sessionHistory s sessionID).drop (clampLimit limit).toNat,
          m.created_at ≤ m'.created_at) ∧
    ((sessionHistory s sessionID).length ≤ (clampLimit limit).toNat →
      (LoadHistoryAsContents s sessionID limit).1 =
        (sessionHistory s sessionID).map historyItem) := by
  have hout := LoadHistoryAsContents_of_no_error s sessionID limit herr
  refine ⟨hout, ?_, ?_⟩
  · intro hlt
    constructor
    · rw [hout, List.length_map, List.length_take]
      omega
    · have hsorted := sessionHistory_sorted s sessionID
      rw [← List.take_append_drop (clampLimit limit).toNat (sessionHistory s sessionID)] at hsorted
      exact (List.pairwise_append.mp hsorted).2.2
  · intro hle
    rw [hout, List.take_of_length_le hle]

/-- C17, amended, on the example store with the limit 1: of the two messages of
the session only the older one, the assistant message, is returned. -/
theorem LoadHistoryAsContents_oldest_witness :
    (LoadHistoryAsContents sampleStore "s" 1).2 = none ∧
    (sessionHistory sampleStore "s").length = 2 ∧
    (LoadHistoryAsContents sampleStore "s" 1).1 = [NewContentFromText "welcome" "model"] ∧
    (LoadHistoryAsContents sampleStore "s" 1).1 =
      ((sessionHistory sampleStore "s").take (clampLimit 1).toNat).map historyItem :=
  ⟨by decide, by decide, by decide,
    (LoadHistoryAsContents_oldest sampleStore "s" 1 (by decide)).1⟩

/-! ## The claims on the sampling handler -/

/-- C12: `CreateMessage` invokes the model whose name the context carries, or
`DefaultModel` when it carries none, and reports that name in the `Model` field
of its result; in the configuration it passes, the temperature is set exactly
when the context carries a temperature that is not zero, the maximum of output
tokens exactly when it carries a positive value, the stop sequences exactly when
it carries a list that is not empty, each to the carried value. -/
theorem CreateMessage_options (g : GeminiSampler)
    (generate : String → List Content → SamplerConfig → Except GoError GenerateContentResponse)
    (ctx : SamplingContext) (req : CreateMessageRequest) :
    (CreateMessage g generate ctx req =
      match generate (samplerModel g ctx) (samplerContents req) (samplerConfig ctx req) with
      | Except.error err => Except.error err
      | Except.ok resp =>
        Except.ok
          { Role := "assistant", Content := McpContent.text resp.Text,
            Model := samplerModel g ctx, StopReason := "end_turn" }) ∧
    (∀ m, ctx.model = some m → samplerModel g ctx = m) ∧
    (ctx.model = none → samplerModel g ctx = g.DefaultModel) ∧
    (∀ r, CreateMessage g generate ctx req = Except.ok r → r.Model = samplerModel g ctx) ∧
    (∀ t, (samplerConfig ctx req).Temperature = some t ↔
      ctx.temperature = some t ∧ t.neZero = true) ∧
    ((samplerConfig ctx req).MaxOutputTokens ≠ 0 ↔ ∃ mt, ctx.maxTokens = some mt ∧ mt > 0) ∧
    ((samplerConfig ctx req).MaxOutputTokens ≠ 0 →
      ctx.maxTokens = some (samplerConfig ctx req).MaxOutputTokens) ∧
    ((samplerConfig ctx req).StopSequences ≠ [] ↔
      ∃ stop, ctx.stopSeq = some stop ∧ stop ≠ []) ∧
    ((samplerConfig ctx req).StopSequences ≠ [] →
      ctx.stopSeq = some (samplerConfig ctx req).StopSequences) := by
  refine ⟨rfl, ?_, ?_, ?_, ?_, ?_, ?_, ?_, ?_⟩
  · intro m hm
    simp [samplerModel, ctxGet, hm]
  · intro hm
    simp [samplerModel, ctxGet, hm]
  · intro r hr
    unfold CreateMessage at hr
    cases hgen : generate (samplerModel g ctx) (samplerContents req) (samplerConfig ctx req) with
    | error err => simp [hgen] at hr
    | ok resp =>
      simp only [hgen, Except.ok.injEq] at hr
      rw [← hr]
  · intro t
    cases ht : ctx.temperature with
    | none => simp [samplerConfig, ctxGet, ht, Float32.neZero]
    | some t' =>
      by_cases hz : t'.neZero = true
      · simp only [samplerConfig, ctxGet, ht, hz, if_true, Option.some.injEq]
        constructor
        · intro h
          subst h
          exact ⟨rfl, hz⟩
        · intro h
          exact h.1
      · simp only [samplerConfig, ctxGet, ht, hz, if_false, Option.some.injEq]
        constructor
        · intro h
          exact Option.noConfusion h
        · rintro ⟨h, hne⟩
          subst h
          exact absurd hne hz
  · cases hm : ctx.maxTokens with
    | none => simp [samplerConfig, ctxGet, hm]
    | some mt =>
      by_cases hpos : mt > 0
      · simp only [samplerConfig, ctxGet, hm, hpos, if_true, Option.some.injEq, exists_eq_left',
          iff_true]
        omega
      · simp [samplerConfig, ctxGet, hm, hpos]
  · cases hm : ctx.maxTokens with
    | none => simp [samplerConfig, ctxGet, hm]
    | some mt =>
      by_cases hpos : mt > 0
      · simp [samplerConfig, ctxGet, hm, hpos]
      · simp [samplerConfig, ctxGet, hm, hpos]
  · cases hs : ctx.stopSeq with
    | none => simp [samplerConfig, ctxGet, hs]
    | some stop =>
      cases stop with
      | nil => simp [samplerConfig, ctxGet, hs]
      | cons a rest => simp [samplerConfig, ctxGet, hs]
  · cases hs : ctx.stopSeq with
    | none => simp [samplerConfig, ctxGet, hs]
    | some stop =>
      cases stop with
      | nil => simp [samplerConfig, ctxGet, hs]
      | cons a rest => simp [samplerConfig, ctxGet, hs]

/-- C13, as stated, fails on padded and blank prompts: for the injected
fragment " be brief " and the request prompt " " the program sets the single
segment "be brief", not the two segments with the texts of the prompts. -/
theorem CreateMessage_system_counterexample :
    (samplerConfig paddedPromptContext { Messages := [], SystemPrompt := " " }).SystemInstruction =
      some { Parts := [Part.text "be brief"], Role := "" } ∧
    statedSystemInstruction " be brief " " " =
      some { Parts := [Part.text " be brief ", Part.text " "], Role := "" } ∧
    (samplerConfig paddedPromptContext { Messages := [], SystemPrompt := " " }).SystemInstruction ≠
      statedSystemInstruction " be brief " " " := by
  decide

/-- C13, amended: the system instruction has one segment per prompt that is not
empty once its leading and trailing white space is removed, with the trimmed
text of that prompt, the injected fragment first and the prompt of the request
second; no system instruction is set when both are empty after trimming. -/
theorem CreateMessage_system_instruction (ctx : SamplingContext) (req : CreateMessageRequest) :
    (samplerConfig ctx req).SystemInstruction =
      statedSystemInstruction (TrimSpace (ctxGet ctx.sysPrompt "")) (TrimSpace req.SystemPrompt) := by
  by_cases hp : TrimSpace (ctxGet ctx.sysPrompt "") = "" <;>
    by_cases hsp : TrimSpace req.SystemPrompt = "" <;>
    simp [samplerConfig, samplerSysParts, statedSystemInstruction, hp, hsp]

/-! ## The conversation of a run -/

theorem toolTurns_append (l₁ l₂ : List Event) :
    toolTurns (l₁ ++ l₂) = toolTurns l₁ ++ toolTurns l₂ := by
  simp [toolTurns, List.filterMap_append]

theorem calledCalls_append (l₁ l₂ : List Event) :
    calledCalls (l₁ ++ l₂) = calledCalls l₁ ++ calledCalls l₂ := by
  simp [calledCalls, List.filterMap_append]

theorem requestedCalls_append (l₁ l₂ : List Event) :
    requestedCalls (l₁ ++ l₂) = requestedCalls l₁ ++ requestedCalls l₂ := by
  simp [requestedCalls, genOutcomes_append]

theorem requestedCalls_of_no_gen {l : List Event} (h : genOutcomes l = []) :
    requestedCalls l = [] := by
  simp [requestedCalls, h]

/-- The turns of a record answer, one by one, the calls passed to `CallTool`. -/
theorem toolTurns_answer (l : List Event) :
    List.Forall₂ answersCall (calledCalls l) (toolTurns l) := by
  induction l with
  | nil => exact List.Forall₂.nil
  | cons ev l ih =>
    cases ev with
    | callTool name args res callErr =>
      have hc : calledCalls (Event.callTool name args res callErr :: l) =
          { Name := name, Args := args } :: calledCalls l := by simp [calledCalls]
      have ht : toolTurns (Event.callTool name args res callErr :: l) =
          responseTurn name res callErr :: toolTurns l := by simp [toolTurns]
      rw [hc, ht]
      refine List.Forall₂.cons ?_ ih
      cases callErr with
      | some e => exact Or.inl ⟨e.Error, rfl⟩
      | none => exact Or.inr ⟨extractToolText res, res, rfl⟩
    | listTools out => simpa [calledCalls, toolTurns] using ih
    | generate c out => simpa [calledCalls, toolTurns] using ih
    | onTool step name args res callErr => simpa [calledCalls, toolTurns] using ih

/-- A property of every generation call survives a new generation call that
has it. -/
theorem EachGen_concat {φ : List Event → List Content → Except GoError GenerateContentResponse → Prop}
    {l : List Event} {c : List Content} {out : Except GoError GenerateContentResponse}
    (h : EachGen φ l) (hnew : φ l c out) : EachGen φ (l ++ [Event.generate c out]) := by
  intro pre c' out' post hsplit
  rcases List.append_eq_append_iff.mp hsplit with ⟨a', hpre, hrest⟩ | ⟨c'', hl, hrest⟩
  · cases a' with
    | nil =>
      simp only [List.nil_append, List.cons.injEq] at hrest
      obtain ⟨hev, _⟩ := hrest
      injection hev with hc hout
      rw [hpre, List.append_nil, ← hc, ← hout]
      exact hnew
    | cons x xs =>
      have hlen := congrArg List.length hrest
      simp at hlen
  · cases c'' with
    | nil =>
      simp only [List.nil_append, List.cons.injEq] at hrest
      obtain ⟨hev, _⟩ := hrest
      injection hev with hc hout
      rw [List.append_nil] at hl
      rw [← hl, hc, hout]
      exact hnew
    | cons x xs =>
      simp only [List.cons_append, List.cons.injEq] at hrest
      obtain ⟨hx, _⟩ := hrest
      rw [← hx] at hl
      exact h pre c' out' xs hl

/-- A property of every generation call survives events that are no
generation calls. -/
theorem EachGen_append {φ : List Event → List Content → Except GoError GenerateContentResponse → Prop}
    {l ext : List Event} (h : EachGen φ l) (hext : genOutcomes ext = []) :
    EachGen φ (l ++ ext) := by
  have hnot : ∀ c out, Event.generate c out ∉ ext := by
    intro c out hmem
    have := mem_genOutcomes hmem
    rw [hext] at this
    simp at this
  intro pre c out post hsplit
  rcases List.append_eq_append_iff.mp hsplit with ⟨a', _, hrest⟩ | ⟨c'', hl, hrest⟩
  · exact absurd (by rw [hrest]; simp) (hnot c out)
  · cases c'' with
    | nil =>
      simp only [List.nil_append] at hrest
      exact absurd (by rw [← hrest]; simp) (hnot c out)
    | cons x xs =>
      simp only [List.cons_append, List.cons.injEq] at hrest
      obtain ⟨hx, _⟩ := hrest
      rw [← hx] at hl
      exact h pre c out xs hl

theorem afterCall_log_eq {σ : Type} (env : Env σ) (onTool : Observer σ) (step : Nat)
    (c : FunctionCall) (st : LoopState σ) :
    (afterCall env onTool step c st).log =
      st.log ++ callEvents onTool step c (env.CallTool st.world c.Name c.Args).1.1
        (env.CallTool st.world c.Name c.Args).1.2 := by
  cases onTool with
  | none => simp [afterCall, observe, callEvents]
  | some f => simp [afterCall, observe, callEvents]

theorem afterCall_contents {σ : Type} (env : Env σ) (onTool : Observer σ) (step : Nat)
    (c : FunctionCall) (st : LoopState σ) :
    (afterCall env onTool step c st).contents =
      st.contents ++ [responseTurn c.Name (env.CallTool st.world c.Name c.Args).1.1
        (env.CallTool st.world c.Name c.Args).1.2] := by
  cases h : (env.CallTool st.world c.Name c.Args).1.2 <;>
    simp [afterCall, responseTurn, toolEntry, h]

theorem callEvents_read {σ : Type} (onTool : Observer σ) (step : Nat) (c : FunctionCall)
    (res : Option CallToolResult) (callErr : Option GoError) :
    genOutcomes (callEvents onTool step c res callErr) = [] ∧
    toolTurns (callEvents onTool step c res callErr) = [responseTurn c.Name res callErr] ∧
    calledCalls (callEvents onTool step c res callErr) = [c] := by
  cases onTool with
  | none => simp [callEvents, genOutcomes, toolTurns, calledCalls]
  | some f => simp [callEvents, genOutcomes, toolTurns, calledCalls]

/-- The inner loop adds to the record only events of executed calls, one call
of the tool per call of the batch, in order, and adds to the conversation the
turns of those calls. -/
theorem execCalls_ext {σ : Type} (env : Env σ) (onTool : Observer σ) (step : Nat) :
    ∀ (cs : List FunctionCall) (st : LoopState σ),
      ∃ ext : List Event,
        (execCalls env onTool step cs st).log = st.log ++ ext ∧
        genOutcomes ext = [] ∧
        (execCalls env onTool step cs st).contents = st.contents ++ toolTurns ext ∧
        calledCalls ext = cs := by
  intro cs
  induction cs with
  | nil =>
    intro st
    exact ⟨[], by simp [execCalls], rfl, by simp [execCalls, toolTurns], rfl⟩
  | cons c cs ih =>
    intro st
    rw [execCalls_cons]
    obtain ⟨ext, hlog, hgen, hcontents, hcalls⟩ := ih (afterCall env onTool step c st)
    obtain ⟨r₁, r₂, r₃⟩ := callEvents_read onTool step c
      (env.CallTool st.world c.Name c.Args).1.1 (env.CallTool st.world c.Name c.Args).1.2
    refine ⟨callEvents onTool step c (env.CallTool st.world c.Name c.Args).1.1
      (env.CallTool st.world c.Name c.Args).1.2 ++ ext, ?_, ?_, ?_, ?_⟩
    · rw [hlog, afterCall_log_eq, List.append_assoc]
    · rw [genOutcomes_append, r₁, hgen]
      rfl
    · rw [hcontents, afterCall_contents, toolTurns_append, r₂, List.append_assoc]
    · rw [calledCalls_append, r₃, hcalls]
      rfl

/-- Induction over the rounds of a run: a property `P` of the state that every
round with calls keeps, and from which `Q` follows for the world and the record
when the run stops with the budget used up, with a generation error or with an
answer, gives `Q` for the result. -/
theorem rounds_induction {σ : Type} (env : Env σ) (model : String) (cfg : GenerateContentConfig)
    (onTool : Observer σ) (maxSteps : Nat) (P : LoopState σ → Prop)
    (Q : σ → List Event → Prop)
    (hstop : ∀ st, P st → Q st.world st.log)
    (hend : ∀ st, P st →
      Q (env.GenerateContent st.world model st.contents cfg).2
        (st.log ++ [Event.generate st.contents (env.GenerateContent st.world model st.contents cfg).1]))
    (hcalls : ∀ st, P st → ∀ (resp : GenerateContentResponse) (step : Nat),
      (env.GenerateContent st.world model st.contents cfg).1 = Except.ok resp →
      resp.FunctionCalls ≠ [] →
      P (execCalls env onTool step resp.FunctionCalls
        { world := (env.GenerateContent st.world model st.contents cfg).2
          contents := st.contents, trace := st.trace
          log := st.log ++ [Event.generate st.contents (Except.ok resp)] })) :
    ∀ (left : Nat) (st : LoopState σ), P st →
      Q (rounds env model cfg onTool maxSteps left st).world
        (rounds env model cfg onTool maxSteps left st).log := by
  intro left
  induction left with
  | zero =>
    intro st hP
    rw [rounds_zero]
    exact hstop st hP
  | succ left ih =>
    intro st hP
    cases h : (env.GenerateContent st.world model st.contents cfg).1 with
    | error e =>
      rw [rounds_error env model cfg onTool maxSteps left st e h]
      have := hend st hP
      rw [h] at this
      exact this
    | ok resp =>
      by_cases hc : resp.FunctionCalls = []
      · rw [rounds_final env model cfg onTool maxSteps left st resp h hc]
        have := hend st hP
        rw [h] at this
        exact this
      · rw [rounds_calls env model cfg onTool maxSteps left st resp h hc]
        exact ih _ (hcalls st hP resp _ h hc)

/-- A record with a generation call has a first one. -/
theorem first_generate (l : List Event) (h : genOutcomes l ≠ []) :
    ∃ pre c out post, l = pre ++ Event.generate c out :: post ∧ genOutcomes pre = [] := by
  induction l with
  | nil => exact absurd rfl h
  | cons ev l ih =>
    cases ev with
    | generate c out => exact ⟨[], c, out, l, rfl, rfl⟩
    | listTools o =>
      obtain ⟨pre, c, out, post, hl, hpre⟩ := ih (by simpa [genOutcomes] using h)
      exact ⟨Event.listTools o :: pre, c, out, post, by rw [hl]; rfl,
        by simpa [genOutcomes] using hpre⟩
    | callTool name args res callErr =>
      obtain ⟨pre, c, out, post, hl, hpre⟩ := ih (by simpa [genOutcomes] using h)
      exact ⟨Event.callTool name args res callErr :: pre, c, out, post, by rw [hl]; rfl,
        by simpa [genOutcomes] using hpre⟩
    | onTool step name args res callErr =>
      obtain ⟨pre, c, out, post, hl, hpre⟩ := ih (by simpa [genOutcomes] using h)
      exact ⟨Event.onTool step name args res callErr :: pre, c, out, post, by rw [hl]; rfl,
        by simpa [genOutcomes] using hpre⟩

/-- In every run, each generation call gets the seeded conversation followed by
the turns of all the tool calls made before it, and those tool calls are the
calls the model had returned until then. -/
theorem agentLoop_each_gen {σ : Type} (env : Env σ) (w : σ) (model : String)
    (history : List Content) (userQ sysPrompt : String) (maxSteps : Int) (forceTools : Bool)
    (onTool : Observer σ) :
    EachGen
      (fun pre c _ =>
        c = history ++ [NewContentFromText userQ "user"] ++ toolTurns pre ∧
        calledCalls pre = requestedCalls pre)
      (agentLoop env w model history userQ sysPrompt maxSteps forceTools onTool).log := by
  cases h : (env.ListTools w).1 with
  | error e =>
    rw [agentLoop_catalog_error env w model history userQ sysPrompt maxSteps forceTools onTool e h]
    intro pre c out post hsplit
    have hmem : Event.generate c out ∈ [Event.listTools (Except.error e)] := by
      rw [show [Event.listTools (Except.error e)] = pre ++ Event.generate c out :: post from hsplit]
      simp
    simp at hmem
  | ok tools =>
    rw [agentLoop_catalog_ok env w model history userQ sysPrompt maxSteps forceTools onTool tools h]
    apply rounds_induction env model _ onTool (budget maxSteps)
      (fun st =>
        st.contents = history ++ [NewContentFromText userQ "user"] ++ toolTurns st.log ∧
        EachGen
          (fun pre c _ =>
            c = history ++ [NewContentFromText userQ "user"] ++ toolTurns pre ∧
            calledCalls pre = requestedCalls pre) st.log ∧
        calledCalls st.log = requestedCalls st.log)
      (fun _ l =>
        EachGen
          (fun pre c _ =>
            c = history ++ [NewContentFromText userQ "user"] ++ toolTurns pre ∧
            calledCalls pre = requestedCalls pre) l)
    · intro st hP
      exact hP.2.1
    · intro st hP
      exact EachGen_concat hP.2.1 ⟨hP.1, hP.2.2⟩
    · intro st hP resp step _ _
      obtain ⟨ext, hlog, hgen, hcontents, hcalled⟩ := execCalls_ext env onTool step
        resp.FunctionCalls
        { world := (env.GenerateContent st.world model st.contents
            (buildConfig (buildFunctionDecls tools).1 sysPrompt forceTools)).2
          contents := st.contents, trace := st.trace
          log := st.log ++ [Event.generate st.contents (Except.ok resp)] }
      rw [hlog, hcontents]
      refine ⟨?_, EachGen_append (EachGen_concat hP.2.1 ⟨hP.1, hP.2.2⟩) hgen, ?_⟩
      · show st.contents ++ toolTurns ext = _
        rw [toolTurns_append, toolTurns_append, hP.1]
        simp [toolTurns]
      · show calledCalls ((st.log ++ [Event.generate st.contents (Except.ok resp)]) ++ ext) = _
        rw [calledCalls_append, calledCalls_append, requestedCalls_append, requestedCalls_append,
          hP.2.2, hcalled, requestedCalls_of_no_gen hgen]
        simp [calledCalls, requestedCalls, genOutcomes, outcomeCalls]
    · refine ⟨by simp [toolTurns], ?_, rfl⟩
      intro pre c out post hsplit
      have hmem : Event.generate c out ∈ [Event.listTools (Except.ok tools)] := by
        rw [show [Event.listTools (Except.ok tools)] = pre ++ Event.generate c out :: post
          from hsplit]
        simp
      simp at hmem

/-- A run that got its tool catalog makes at least one generation call. -/
theorem agentLoop_generates {σ : Type} (env : Env σ) (w : σ) (model : String)
    (history : List Content) (userQ sysPrompt : String) (maxSteps : Int) (forceTools : Bool)
    (onTool : Observer σ) (tools : List Tool) (hcat : (env.ListTools w).1 = Except.ok tools) :
    genOutcomes (agentLoop env w model history userQ sysPrompt maxSteps forceTools onTool).log
      ≠ [] := by
  rcases agentLoop_cases env w model history userQ sysPrompt maxSteps forceTools onTool with
    ⟨e, he, _⟩ | ⟨tools', _, hend, _, _, hexact⟩
  · rw [hcat] at he
    exact Except.noConfusion he
  · cases hend with
    | answered l c resp hlog _ _ _ _ _ =>
      rw [hlog, genOutcomes_append]
      simp [genOutcomes]
    | failed l c e hlog _ _ _ _ =>
      rw [hlog, genOutcomes_append]
      simp [genOutcomes]
    | exhausted hopen _ _ _ =>
      intro hnil
      have hcount := hexact hopen
      unfold genCount at hcount
      rw [hnil] at hcount
      have := (budget_range maxSteps).1
      simp at hcount
      omega

theorem toolTurns_length (l : List Event) : (toolTurns l).length = (calledCalls l).length :=
  (List.Forall₂.length_eq (toolTurns_answer l)).symm

/-- C14: in every run the conversation passed to the first generation call is
the given history followed by one user turn with the query; the conversation
passed to the next generation call is the conversation of the round before,
followed by one function response turn in the role `tool` per call of that
round, in call order, each named after its call and carrying the error payload
or the result payload, and nothing else; a run that got its catalog has such a
first generation call. -/
theorem agentLoop_conversation {σ : Type} (env : Env σ) (w : σ) (model : String)
    (history : List Content) (userQ sysPrompt : String) (maxSteps : Int) (forceTools : Bool)
    (onTool : Observer σ) :
    (∀ pre c out post,
      (agentLoop env w model history userQ sysPrompt maxSteps forceTools onTool).log =
        pre ++ Event.generate c out :: post →
      genCount pre = 0 → c = history ++ [NewContentFromText userQ "user"]) ∧
    (∀ tools, (env.ListTools w).1 = Except.ok tools →
      ∃ pre out post,
        (agentLoop env w model history userQ sysPrompt maxSteps forceTools onTool).log =
          pre ++ Event.generate (history ++ [NewContentFromText userQ "user"]) out :: post ∧
        genCount pre = 0) ∧
    (∀ pre c resp mid c' out' post,
      (agentLoop env w model history userQ sysPrompt maxSteps forceTools onTool).log =
        pre ++ Event.generate c (Except.ok resp) :: (mid ++ Event.generate c' out' :: post) →
      genCount mid = 0 →
      c' = c ++ toolTurns mid ∧
      calledCalls mid = resp.FunctionCalls ∧
      List.Forall₂ answersCall resp.FunctionCalls (toolTurns mid)) := by
  have heach := agentLoop_each_gen env w model history userQ sysPrompt maxSteps forceTools onTool
  have hfirst : ∀ pre c out post,
      (agentLoop env w model history userQ sysPrompt maxSteps forceTools onTool).log =
        pre ++ Event.generate c out :: post →
      genCount pre = 0 → c = history ++ [NewContentFromText userQ "user"] := by
    intro pre c out post hsplit hzero
    obtain ⟨hc, hcalled⟩ := heach pre c out post hsplit
    have hnil : genOutcomes pre = [] := List.length_eq_zero.mp hzero
    rw [requestedCalls_of_no_gen hnil] at hcalled
    have hturns : toolTurns pre = [] := by
      apply List.length_eq_zero.mp
      rw [toolTurns_length, hcalled]
      rfl
    rw [hc, hturns, List.append_nil]
  refine ⟨hfirst, ?_, ?_⟩
  · intro tools hcat
    obtain ⟨pre, c, out, post, hsplit, hpre⟩ := first_generate _
      (agentLoop_generates env w model history userQ sysPrompt maxSteps forceTools onTool tools hcat)
    have hzero : genCount pre = 0 := by
      unfold genCount
      rw [hpre]
      rfl
    have hc := hfirst pre c out post hsplit hzero
    rw [hc] at hsplit
    exact ⟨pre, out, post, hsplit, hzero⟩
  · intro pre c resp mid c' out' post hsplit hzero
    have hmidgen : genOutcomes mid = [] := List.length_eq_zero.mp hzero
    obtain ⟨hc, hcalled⟩ := heach pre c (Except.ok resp) (mid ++ Event.generate c' out' :: post)
      hsplit
    have hsplit' : (agentLoop env w model history userQ sysPrompt maxSteps forceTools onTool).log =
        (pre ++ Event.generate c (Except.ok resp) :: mid) ++ Event.generate c' out' :: post := by
      rw [hsplit]
      simp
    obtain ⟨hc', hcalled'⟩ := heach _ c' out' post hsplit'
    have hturns : toolTurns (pre ++ Event.generate c (Except.ok resp) :: mid) =
        toolTurns pre ++ toolTurns mid := by
      rw [toolTurns_append]
      simp [toolTurns]
    have hcalls : calledCalls mid = resp.FunctionCalls := by
      have h₁ : calledCalls (pre ++ Event.generate c (Except.ok resp) :: mid) =
          calledCalls pre ++ calledCalls mid := by
        rw [calledCalls_append]
        simp [calledCalls]
      have h₂ : requestedCalls (pre ++ Event.generate c (Except.ok resp) :: mid) =
          requestedCalls pre ++ resp.FunctionCalls := by
        rw [requestedCalls_append]
        have : requestedCalls (Event.generate c (Except.ok resp) :: mid) =
            resp.FunctionCalls ++ requestedCalls mid := by
          simp [requestedCalls, genOutcomes, outcomeCalls]
        rw [this, requestedCalls_of_no_gen hmidgen, List.append_nil]
      rw [h₁, h₂, hcalled] at hcalled'
      exact List.append_cancel_left hcalled'
    refine ⟨?_, hcalls, ?_⟩
    · rw [hc', hturns, hc]
      simp only [List.append_assoc]
    · rw [← hcalls]
      exact toolTurns_answer mid

/-- The conversations of the example run with two calls: the seed, then the
seed with the error turn of the failed call and the result turn of the other. -/
theorem agentLoop_conversation_sample :
    genConversations twoCallRun.log =
      [[NewContentFromText "earlier" "model", NewContentFromText "q" "user"],
       [NewContentFromText "earlier" "model", NewContentFromText "q" "user",
        NewContentFromFunctionResponse "a" (FunctionResponsePayload.error "down") "tool",
        NewContentFromFunctionResponse "b"
          (FunctionResponsePayload.result "b"
            (some { Content := [McpContent.text "b"], IsError := false })) "tool"]] := by
  decide

/-! ## The callback of a run -/

theorem observedEachCall_append :
    ∀ (l₁ l₂ : List Event), observedEachCall l₁ → observedEachCall l₂ →
      observedEachCall (l₁ ++ l₂) := by
  intro l₁
  induction l₁ using observedEachCall.induct with
  | case1 => intro l₂ _ h₂; exact h₂
  | case2 name args res callErr step name' args' res' callErr' rest ih =>
    intro l₂ h₁ h₂
    simp only [observedEachCall] at h₁
    simp only [List.cons_append, observedEachCall]
    exact ⟨h₁.1, h₁.2.1, h₁.2.2.1, h₁.2.2.2.1, ih l₂ h₁.2.2.2.2 h₂⟩
  | case3 name args res callErr rest hne =>
    intro l₂ h₁ _
    exfalso
    cases rest with
    | nil => simp [observedEachCall] at h₁
    | cons ev rest' =>
      cases ev with
      | onTool step name' args' res' callErr' => exact hne _ _ _ _ _ _ rfl
      | listTools o => simp [observedEachCall] at h₁
      | generate c o => simp [observedEachCall] at h₁
      | callTool n a r e => simp [observedEachCall] at h₁
  | case4 step name args res callErr rest =>
    intro l₂ h₁ _
    simp [observedEachCall] at h₁
  | case5 out rest ih =>
    intro l₂ h₁ h₂
    simp only [observedEachCall] at h₁
    simp only [List.cons_append, observedEachCall]
    exact ih l₂ h₁ h₂
  | case6 c out rest ih =>
    intro l₂ h₁ h₂
    simp only [observedEachCall] at h₁
    simp only [List.cons_append, observedEachCall]
    exact ih l₂ h₁ h₂

/-- In a record where the callback runs once per tool call there are as many
runs of the callback as calls of the tool. -/
theorem observedEachCall_count :
    ∀ l : List Event, observedEachCall l → onToolCount l = (toolCallNames l).length := by
  intro l
  induction l using observedEachCall.induct with
  | case1 => intro _; rfl
  | case2 name args res callErr step name' args' res' callErr' rest ih =>
    intro h
    simp only [observedEachCall] at h
    have := ih h.2.2.2.2
    simp only [onToolCount, toolCallNames] at this ⊢
    simp [Event.isOnTool, this]
  | case3 name args res callErr rest hne =>
    intro h
    exfalso
    cases rest with
    | nil => simp [observedEachCall] at h
    | cons ev rest' =>
      cases ev with
      | onTool step name' args' res' callErr' => exact hne _ _ _ _ _ _ rfl
      | listTools o => simp [observedEachCall] at h
      | generate c o => simp [observedEachCall] at h
      | callTool n a r e => simp [observedEachCall] at h
  | case4 step name args res callErr rest =>
    intro h
    simp [observedEachCall] at h
  | case5 out rest ih =>
    intro h
    simp only [observedEachCall] at h
    have := ih h
    simp only [onToolCount, toolCallNames] at this ⊢
    simp [Event.isOnTool, this]
  | case6 c out rest ih =>
    intro h
    simp only [observedEachCall] at h
    have := ih h
    simp only [onToolCount, toolCallNames] at this ⊢
    simp [Event.isOnTool, this]

/-- Induction over the calls of a batch: a property of the state that every
executed call keeps holds after the batch. -/
theorem execCalls_induction {σ : Type} (env : Env σ) (onTool : Observer σ) (step : Nat)
    (P : LoopState σ → Prop) (h : ∀ c st, P st → P (afterCall env onTool step c st)) :
    ∀ (cs : List FunctionCall) (st : LoopState σ), P st →
      P (execCalls env onTool step cs st) := by
  intro cs
  induction cs with
  | nil => intro st hP; simpa [execCalls] using hP
  | cons c cs ih =>
    intro st hP
    rw [execCalls_cons]
    exact ih _ (h c st hP)

/-- In every run with a callback, the callback runs exactly once per tool call,
right after the call returned. -/
theorem agentLoop_observed {σ : Type} (env : Env σ) (w : σ) (model : String)
    (history : List Content) (userQ sysPrompt : String) (maxSteps : Int) (forceTools : Bool)
    (f : σ → Nat → String → JMap → Option CallToolResult → Option GoError → σ) :
    observedEachCall
      (agentLoop env w model history userQ sysPrompt maxSteps forceTools (some f)).log := by
  cases h : (env.ListTools w).1 with
  | error e =>
    rw [agentLoop_catalog_error env w model history userQ sysPrompt maxSteps forceTools _ e h]
    simp [observedEachCall]
  | ok tools =>
    rw [agentLoop_catalog_ok env w model history userQ sysPrompt maxSteps forceTools _ tools h]
    apply rounds_induction env model _ (some f) (budget maxSteps)
      (fun st => observedEachCall st.log) (fun _ l => observedEachCall l)
    · intro st hP
      exact hP
    · intro st hP
      exact observedEachCall_append _ _ hP (by simp [observedEachCall])
    · intro st hP resp step _ _
      apply execCalls_induction env (some f) step (fun st => observedEachCall st.log)
      · intro c st' hP'
        rw [afterCall_log_eq]
        exact observedEachCall_append _ _ hP' (by simp [callEvents, observedEachCall])
      · exact observedEachCall_append _ _ hP (by simp [observedEachCall])
    · simp [observedEachCall]

/-! ## The query handler -/

theorem exec_sent (db : Db) (stmt : Statement) : (db.Exec stmt).2.sent = db.sent ++ [stmt] := by
  unfold Db.Exec
  cases hf : db.execFaults with
  | nil => cases stmt <;> simp [Db.applyStatement]
  | cons o rest =>
    cases o with
    | none => cases stmt <;> simp [Db.applyStatement]
    | some err => simp

theorem invocationsSent_append (l₁ l₂ : List Statement) :
    invocationsSent (l₁ ++ l₂) = invocationsSent l₁ ++ invocationsSent l₂ := by
  simp [invocationsSent, List.filterMap_append]

/-- One run of the callback: the counter goes up by one and exactly one request
to save an invocation is sent, with the new counter and the name of the call. -/
theorem onTool_step {σ : Type} (sid : String) (hw : HandlerWorld σ) (step : Nat) (name : String)
    (args : JMap) (res : Option CallToolResult) (callErr : Option GoError) :
    (handleQueryAgent.onTool sid hw step name args res callErr).stepIdx = hw.stepIdx + 1 ∧
    ∃ row : ToolInvocation,
      invocationsSent (handleQueryAgent.onTool sid hw step name args res callErr).db.sent =
        invocationsSent hw.db.sent ++ [row] ∧
      row.step_index = hw.stepIdx + 1 ∧ row.tool_name = name := by
  refine ⟨rfl, ?_⟩
  refine ⟨{ session_id := sid, step_index := hw.stepIdx + 1, tool_name := name, args := args,
            result_text := (match res with
              | some _ => extractToolText res
              | none => ""),
            raw := res
            error := (match callErr with
              | some e => e.Error
              | none => "") }, ?_, rfl, rfl⟩
  simp only [handleQueryAgent.onTool, SaveToolInvocation, SaveMessage]
  split_ifs with htxt
  · rw [exec_sent, exec_sent, invocationsSent_append, invocationsSent_append]
    simp [invocationsSent]
  · rw [exec_sent, invocationsSent_append]
    simp [invocationsSent]

theorem afterCall_world {σ : Type} (env : Env σ)
    (f : σ → Nat → String → JMap → Option CallToolResult → Option GoError → σ) (step : Nat)
    (c : FunctionCall) (st : LoopState σ) :
    (afterCall env (some f) step c st).world =
      f (env.CallTool st.world c.Name c.Args).2 step c.Name c.Args
        (env.CallTool st.world c.Name c.Args).1.1 (env.CallTool st.world c.Name c.Args).1.2 := by
  simp [afterCall, observe]

/-- The callback of the handler keeps the invocation log in step with the
record over one executed call. -/
theorem afterCall_invocations {σ : Type} (env : Env σ) (sid : String)
    (base : List ToolInvocation) (step : Nat) (c : FunctionCall)
    (st : LoopState (HandlerWorld σ)) (h : invocationsInStep base st.world st.log) :
    invocationsInStep base
      (afterCall (liftEnv env) (some (handleQueryAgent.onTool sid)) step c st).world
      (afterCall (liftEnv env) (some (handleQueryAgent.onTool sid)) step c st).log := by
  obtain ⟨hidx, rows, hsent, hsteps, hnames⟩ := h
  rw [afterCall_world, afterCall_log_eq]
  obtain ⟨hstep, row, hrow, hrowstep, hrowname⟩ := onTool_step sid
    ((liftEnv env).CallTool st.world c.Name c.Args).2 step c.Name c.Args
    ((liftEnv env).CallTool st.world c.Name c.Args).1.1
    ((liftEnv env).CallTool st.world c.Name c.Args).1.2
  have hdb : (((liftEnv env).CallTool st.world c.Name c.Args).2).db = st.world.db := rfl
  have hix : (((liftEnv env).CallTool st.world c.Name c.Args).2).stepIdx = st.world.stepIdx := rfl
  rw [hdb] at hrow
  rw [hix] at hstep hrowstep
  have hlog : toolCallNames (st.log ++
      callEvents (some (handleQueryAgent.onTool sid) : Observer (HandlerWorld σ)) step c
      ((liftEnv env).CallTool st.world c.Name c.Args).1.1
      ((liftEnv env).CallTool st.world c.Name c.Args).1.2) = toolCallNames st.log ++ [c.Name] := by
    rw [toolCallNames_append]
    simp [callEvents, toolCallNames]
  refine ⟨?_, rows ++ [row], ?_, ?_, ?_⟩
  · rw [hstep, hlog, hidx]
    simp
  · rw [hrow, hsent, List.append_assoc]
  · rw [hlog, List.map_append, hsteps, List.length_append, List.length_singleton,
      List.range'_concat]
    simp only [List.map_cons, List.map_nil, hrowstep, hidx]
    congr 2
    omega
  · rw [hlog, List.map_append, hnames]
    simp only [List.map_cons, List.map_nil, hrowname]

/-- Over a whole agent run of the handler the invocation log stays in step with
the record. -/
theorem agentLoop_invocations {σ : Type} (env : Env σ) (sid : String) (hw : HandlerWorld σ)
    (hzero : hw.stepIdx = 0) (model : String) (history : List Content)
    (userQ sysPrompt : String) (maxSteps : Int) (forceTools : Bool) :
    invocationsInStep (invocationsSent hw.db.sent)
      (agentLoop (liftEnv env) hw model history userQ sysPrompt maxSteps forceTools
        (some (handleQueryAgent.onTool sid))).world
      (agentLoop (liftEnv env) hw model history userQ sysPrompt maxSteps forceTools
        (some (handleQueryAgent.onTool sid))).log := by
  cases h : ((liftEnv env).ListTools hw).1 with
  | error e =>
    rw [agentLoop_catalog_error (liftEnv env) hw model history userQ sysPrompt maxSteps forceTools
      _ e h]
    exact ⟨hzero, [], by simp [liftEnv], rfl, rfl⟩
  | ok tools =>
    rw [agentLoop_catalog_ok (liftEnv env) hw model history userQ sysPrompt maxSteps forceTools
      _ tools h]
    have hgen : ∀ (st : LoopState (HandlerWorld σ)) (cfg : GenerateContentConfig)
        (out : Except GoError GenerateContentResponse),
        invocationsInStep (invocationsSent hw.db.sent) st.world st.log →
        invocationsInStep (invocationsSent hw.db.sent)
          ((liftEnv env).GenerateContent st.world model st.contents cfg).2
          (st.log ++ [Event.generate st.contents out]) := by
      intro st cfg out hP
      obtain ⟨hidx, rows, hsent, hsteps, hnames⟩ := hP
      have hlog : toolCallNames (st.log ++ [Event.generate st.contents out]) =
          toolCallNames st.log := by
        rw [toolCallNames_append]
        simp [toolCallNames]
      rw [invocationsInStep, hlog]
      exact ⟨hidx, rows, hsent, hsteps, hnames⟩
    apply rounds_induction (liftEnv env) model _ (some (handleQueryAgent.onTool sid))
      (budget maxSteps)
      (fun st => invocationsInStep (invocationsSent hw.db.sent) st.world st.log)
      (fun w l => invocationsInStep (invocationsSent hw.db.sent) w l)
    · intro st hP
      exact hP
    · intro st hP
      exact hgen st _ _ hP
    · intro st hP resp step _ _
      apply execCalls_induction (liftEnv env) (some (handleQueryAgent.onTool sid)) step
        (fun st => invocationsInStep (invocationsSent hw.db.sent) st.world st.log)
      · intro c st' hP'
        exact afterCall_invocations env sid _ step c st' hP'
      · exact hgen st _ _ hP
    · exact ⟨hzero, [], by simp [liftEnv], rfl, rfl⟩

theorem handleQueryAgent_ok {σ : Type} (env : Env σ) (cfgModel : String)
    (uuidParse : String → Option String) (newID : String) (w : σ) (db : Db) (method : String)
    (body : Option queryReq) (req : queryReq) (sid : String) (db' : Db)
    (h : ensureSession uuidParse newID db method body = Except.ok (req, sid, db')) :
    handleQueryAgent env cfgModel uuidParse newID w db method body =
      runQuery env cfgModel w db' req sid := by
  simp [handleQueryAgent, h]

/-- A handler run that reached `agentLoop` got its session, loaded the history
without error and ran `agentLoop` from the start state with the callback of the
handler; its database is the one the run left, with the request to save the
answer sent when there was one. -/
theorem handleQueryAgent_run {σ : Type} (env : Env σ) (cfgModel : String)
    (uuidParse : String → Option String) (newID : String) (w : σ) (db : Db) (method : String)
    (body : Option queryReq) (r : LoopResult (HandlerWorld σ))
    (hrun : (handleQueryAgent env cfgModel uuidParse newID w db method body).run = some r) :
    ∃ req sid db',
      ensureSession uuidParse newID db method body = Except.ok (req, sid, db') ∧
      (LoadHistoryAsContents (runStart w db' req sid).db.store sid 100).2 = none ∧
      r = agentLoop (liftEnv env) (runStart w db' req sid) (firstNonEmpty req.Model cfgModel)
        (LoadHistoryAsContents (runStart w db' req sid).db.store sid 100).1 req.Q req.Prompt
        req.MaxSteps req.ForceTools (some (handleQueryAgent.onTool sid)) ∧
      (handleQueryAgent env cfgModel uuidParse newID w db method body).history =
        some (LoadHistoryAsContents (runStart w db' req sid).db.store sid 100).1 ∧
      invocationsSent (handleQueryAgent env cfgModel uuidParse newID w db method body).db.sent =
        invocationsSent r.world.db.sent := by
  cases hs : ensureSession uuidParse newID db method body with
  | error p =>
    obtain ⟨resp, db'⟩ := p
    simp [handleQueryAgent, hs] at hrun
  | ok p =>
    obtain ⟨req, sid, db'⟩ := p
    rw [handleQueryAgent_ok env cfgModel uuidParse newID w db method body req sid db' hs] at hrun ⊢
    refine ⟨req, sid, db', rfl, ?_⟩
    unfold runQuery at hrun ⊢
    simp only at hrun ⊢
    cases hl : (LoadHistoryAsContents (SaveMessage (TouchSession db' sid) sid "user" req.Q).2.store
        sid 100).2 with
    | some err =>
      rw [hl] at hrun
      simp at hrun
    | none =>
      rw [hl] at hrun
      simp only at hrun ⊢
      cases he : (agentLoop (liftEnv env)
          { ext := w, db := (SaveMessage (TouchSession db' sid) sid "user" req.Q).2, stepIdx := 0 }
          (firstNonEmpty req.Model cfgModel)
          (LoadHistoryAsContents (SaveMessage (TouchSession db' sid) sid "user" req.Q).2.store
            sid 100).1 req.Q req.Prompt req.MaxSteps req.ForceTools
          (some (handleQueryAgent.onTool sid))).err with
      | some loopErr =>
        rw [he] at hrun
        simp only [Option.some.injEq] at hrun
        subst hrun
        refine ⟨hl, rfl, ?_, ?_⟩
        · simp [runStart, hl, he]
        · simp [runStart, hl, he]
      | none =>
        rw [he] at hrun
        simp only [Option.some.injEq] at hrun
        subst hrun
        refine ⟨hl, rfl, ?_, ?_⟩
        · simp [runStart, hl, he]
        · simp only [runStart, hl, he, SaveMessage]
          rw [exec_sent, invocationsSent_append]
          simp [invocationsSent]

/-- The first half of the handler sends no request to save an invocation. -/
theorem ensureSession_sent (uuidParse : String → Option String) (newID : String) (db : Db)
    (method : String) (body : Option queryReq) (req : queryReq) (sid : String) (db' : Db)
    (h : ensureSession uuidParse newID db method body = Except.ok (req, sid, db')) :
    invocationsSent db'.sent = invocationsSent db.sent := by
  unfold ensureSession at h
  split_ifs at h with hm
  cases body with
  | none => simp at h
  | some rq =>
    simp only at h
    split_ifs at h with hq hsid
    · cases hc : (CreateSession db newID "").1.2 with
      | some err => simp [hc] at h
      | none =>
        simp only [hc, Except.ok.injEq, Prod.mk.injEq] at h
        obtain ⟨_, _, hdb⟩ := h
        rw [← hdb]
        simp only [CreateSession]
        rw [exec_sent, invocationsSent_append]
        simp [invocationsSent]
    · cases hp : uuidParse rq.SessionID with
      | none => simp [hp] at h
      | some s =>
        simp only [hp, Except.ok.injEq, Prod.mk.injEq] at h
        obtain ⟨_, _, hdb⟩ := h
        rw [← hdb]

theorem runStart_sent {σ : Type} (w : σ) (db : Db) (req : queryReq) (sid : String) :
    invocationsSent (runStart w db req sid).db.sent = invocationsSent db.sent := by
  simp only [runStart, SaveMessage, TouchSession]
  rw [exec_sent, exec_sent, invocationsSent_append, invocationsSent_append]
  simp [invocationsSent]

/-- C11: in a handler run that reached `agentLoop`, with `n` the number of tool
calls the run executed, the callback runs exactly once per executed call, right
after that call returned and before anything else is called, and thereby
exactly `n` requests to save a tool invocation are sent, in execution order,
with the step indices 1, 2, ..., `n` and the names of the calls, failed calls
included. -/
theorem handleQueryAgent_invocations {σ : Type} (env : Env σ) (cfgModel : String)
    (uuidParse : String → Option String) (newID : String) (w : σ) (db : Db) (method : String)
    (body : Option queryReq) (r : LoopResult (HandlerWorld σ))
    (hrun : (handleQueryAgent env cfgModel uuidParse newID w db method body).run = some r) :
    observedEachCall r.log ∧
    onToolCount r.log = (toolCallNames r.log).length ∧
    ∃ rows : List ToolInvocation,
      invocationsSent (handleQueryAgent env cfgModel uuidParse newID w db method body).db.sent =
        invocationsSent db.sent ++ rows ∧
      rows.length = (toolCallNames r.log).length ∧
      rows.map ToolInvocation.step_index = List.range' 1 (toolCallNames r.log).length ∧
      rows.map ToolInvocation.tool_name = toolCallNames r.log := by
  obtain ⟨req, sid, db', hsess, _, hr, _, hdb⟩ :=
    handleQueryAgent_run env cfgModel uuidParse newID w db method body r hrun
  have hobs : observedEachCall r.log := by
    rw [hr]
    exact agentLoop_observed (liftEnv env) _ _ _ _ _ _ _ _
  refine ⟨hobs, observedEachCall_count _ hobs, ?_⟩
  obtain ⟨_, rows, hsent, hsteps, hnames⟩ := agentLoop_invocations env sid
    (runStart w db' req sid) rfl (firstNonEmpty req.Model cfgModel)
    (LoadHistoryAsContents (runStart w db' req sid).db.store sid 100).1 req.Q req.Prompt
    req.MaxSteps req.ForceTools
  rw [← hr] at hsent hsteps hnames
  refine ⟨rows, ?_, ?_, hsteps, hnames⟩
  · rw [hdb, hsent, runStart_sent,
      ensureSession_sent uuidParse newID db method body req sid db' hsess]
  · have := congrArg List.length hnames
    rw [List.length_map] at this
    exact this

/-- C11, on the example run with three tool calls, the first of which fails:
three requests are sent, with the step indices 1, 2, 3 and the names of the
calls in execution order. -/
theorem handleQueryAgent_invocations_witness :
    (invocationsSent sampleHandlerRun.db.sent).map ToolInvocation.step_index = [1, 2, 3] ∧
    (invocationsSent sampleHandlerRun.db.sent).map ToolInvocation.tool_name = ["a", "b", "c"] ∧
    (invocationsSent sampleHandlerRun.db.sent).map ToolInvocation.error = ["down", "", ""] ∧
    ∃ r, sampleHandlerRun.run = some r ∧
      observedEachCall r.log ∧
      onToolCount r.log = (toolCallNames r.log).length ∧
      ∃ rows : List ToolInvocation,
        invocationsSent sampleHandlerRun.db.sent = invocationsSent emptyDb.sent ++ rows ∧
        rows.length = (toolCallNames r.log).length ∧
        rows.map ToolInvocation.step_index = List.range' 1 (toolCallNames r.log).length ∧
        rows.map ToolInvocation.tool_name = toolCallNames r.log :=
  ⟨by decide, by decide, by decide, _, rfl,
    handleQueryAgent_invocations
      (scripted (Except.ok [])
        (fun name => if name = "a" then (none, some ⟨"down"⟩) else echoTool name))
      "gemini" (fun s => some s) "sid-1" [asks ["a", "b"], asks ["c"], answer "done"] emptyDb
      "POST" (some sampleReq) _ rfl⟩

/-! ## The saved query in the history -/

theorem orderedInsert_concat {α : Type} (r : α → α → Prop) [DecidableRel r] (a x : α)
    (h : r a x) :
    ∀ s : List α, List.orderedInsert r a (s ++ [x]) = List.orderedInsert r a s ++ [x] := by
  intro s
  induction s with
  | nil => simp [h]
  | cons b s ih =>
    simp only [List.cons_append, List.orderedInsert]
    split_ifs with hab
    · rfl
    · exact congrArg (List.cons b) ih

/-- Sorting a list with a last element that nothing in it exceeds leaves that
element last. -/
theorem insertionSort_concat {α : Type} (r : α → α → Prop) [DecidableRel r] (x : α) :
    ∀ l : List α, (∀ y ∈ l, r y x) →
      List.insertionSort r (l ++ [x]) = List.insertionSort r l ++ [x] := by
  intro l
  induction l with
  | nil => intro _; rfl
  | cons a l ih =>
    intro h
    show List.orderedInsert r a (List.insertionSort r (l ++ [x])) =
      List.orderedInsert r a (List.insertionSort r l) ++ [x]
    rw [ih (fun y hy => h y (List.mem_cons_of_mem _ hy))]
    exact orderedInsert_concat r a x (h a (List.mem_cons_self _ _)) _

theorem TouchSession_store (db : Db) (id : String) :
    (TouchSession db id).store = db.store ∧ (TouchSession db id).clock = db.clock + 1 := by
  unfold TouchSession Db.Exec
  cases hf : db.execFaults with
  | nil => simp [Db.applyStatement]
  | cons o rest =>
    cases o with
    | none => simp [Db.applyStatement]
    | some err => simp

/-- A save of a message that succeeds appends the row, stamped with the clock,
and leaves the rest of the store as it was. -/
theorem SaveMessage_store (db : Db) (sessionID role content : String)
    (h : (SaveMessage db sessionID role content).1 = none) :
    (SaveMessage db sessionID role content).2.store =
      { db.store with chat_messages :=
          db.store.chat_messages ++
            [{ session_id := sessionID, role := role, content := some content,
               created_at := db.clock }] } := by
  unfold SaveMessage Db.Exec at h ⊢
  cases hf : db.execFaults with
  | nil => simp [Db.applyStatement]
  | cons o rest =>
    cases o with
    | none => simp [Db.applyStatement]
    | some err => simp [hf] at h

/-- The history of a session after a user message was appended to the store
with a timestamp that no message of the session exceeds: the history before,
then that message. -/
theorem sessionHistory_concat (s : Store) (sessionID : String) (text : String) (now : Nat)
    (hnow : ∀ m ∈ s.chat_messages, m.session_id = sessionID → m.created_at ≤ now) :
    sessionHistory
      { s with chat_messages :=
          s.chat_messages ++
            [{ session_id := sessionID, role := "user", content := some text,
               created_at := now }] } sessionID =
      sessionHistory s sessionID ++
        [{ session_id := sessionID, role := "user", content := some text, created_at := now }] := by
  unfold sessionHistory
  simp only [List.filter_append]
  have hx : List.filter
      (fun m => m.session_id == sessionID && (m.role == "user" || m.role == "assistant"))
      [({ session_id := sessionID, role := "user", content := some text, created_at := now } :
        ChatMessage)] =
      [{ session_id := sessionID, role := "user", content := some text, created_at := now }] := by
    simp
  rw [hx]
  apply insertionSort_concat
  intro y hy
  rw [List.mem_filter] at hy
  have hsid : y.session_id = sessionID := by
    have := hy.2
    simp only [Bool.and_eq_true, beq_iff_eq] at this
    exact this.1
  exact hnow y hy.1 hsid

/-- In every run the conversation of a generation call that no other precedes
is the history followed by the user turn of the query. -/
theorem agentLoop_first_conversation {σ : Type} (env : Env σ) (w : σ) (model : String)
    (history : List Content) (userQ sysPrompt : String) (maxSteps : Int) (forceTools : Bool)
    (onTool : Observer σ) (pre : List Event) (c : List Content)
    (out : Except GoError GenerateContentResponse) (post : List Event)
    (hsplit : (agentLoop env w model history userQ sysPrompt maxSteps forceTools onTool).log =
      pre ++ Event.generate c out :: post)
    (hzero : genCount pre = 0) : c = history ++ [NewContentFromText userQ "user"] := by
  obtain ⟨hc, hcalled⟩ :=
    agentLoop_each_gen env w model history userQ sysPrompt maxSteps forceTools onTool
      pre c out post hsplit
  have hnil : genOutcomes pre = [] := List.length_eq_zero.mp hzero
  rw [requestedCalls_of_no_gen hnil] at hcalled
  have hturns : toolTurns pre = [] := by
    apply List.length_eq_zero.mp
    rw [toolTurns_length, hcalled]
    rfl
  rw [hc, hturns, List.append_nil]

/-- C16, as stated, fails when a stored message of the session is stamped later
than the saved one: the save succeeds and the session holds three messages, yet
the history ends with the stored assistant turn, and the first conversation
does not end with two user turns. -/
theorem handleQueryAgent_repeats_query_counterexample :
    (SaveMessage (TouchSession skewedDb "s1") "s1" "user" followUpReq.Q).1 = none ∧
    (sessionHistory (SaveMessage (TouchSession skewedDb "s1") "s1" "user" followUpReq.Q).2.store
      "s1").length = 3 ∧
    skewedRun.history =
      some [NewContentFromText "hi" "user", NewContentFromText "and now?" "user",
        NewContentFromText "hello" "model"] ∧
    skewedRun.run.map (fun r => genConversations r.log) =
      some [[NewContentFromText "hi" "user", NewContentFromText "and now?" "user",
        NewContentFromText "hello" "model", NewContentFromText "and now?" "user"]] := by
  decide

/-- C16, amended: `handleQueryAgent` saves the user message of the query before it loads
the history; when that save succeeds, the session then holds at most 100 user
and assistant messages, and no stored message of the session is stamped later
than the clock of the database, the history handed to `agentLoop` ends with a
user turn that carries the query text, and the conversation of the first
generation call is that history followed by the user turn of the query, so it
ends with two user turns that both carry the query text. -/
theorem handleQueryAgent_repeats_query {σ : Type} (env : Env σ) (cfgModel : String)
    (uuidParse : String → Option String) (newID : String) (w : σ) (db : Db) (method : String)
    (body : Option queryReq) (req : queryReq) (sid : String) (db' : Db)
    (history : List Content) (r : LoopResult (HandlerWorld σ))
    (hsess : ensureSession uuidParse newID db method body = Except.ok (req, sid, db'))
    (hsave : (SaveMessage (TouchSession db' sid) sid "user" req.Q).1 = none)
    (hcount : (sessionHistory (SaveMessage (TouchSession db' sid) sid "user" req.Q).2.store
      sid).length ≤ 100)
    (hclock : ∀ m ∈ db'.store.chat_messages, m.session_id = sid → m.created_at ≤ db'.clock)
    (hhist : (handleQueryAgent env cfgModel uuidParse newID w db method body).history =
      some history)
    (hrun : (handleQueryAgent env cfgModel uuidParse newID w db method body).run = some r) :
    history.getLast? = some (NewContentFromText req.Q "user") ∧
    (∀ pre c out post, r.log = pre ++ Event.generate c out :: post → genCount pre = 0 →
      c = history ++ [NewContentFromText req.Q "user"] ∧
      ∃ before, c = before ++ [NewContentFromText req.Q "user", NewContentFromText req.Q "user"]) := by
  obtain ⟨req', sid', db'', hsess', hload, hr, hhist', _⟩ :=
    handleQueryAgent_run env cfgModel uuidParse newID w db method body r hrun
  rw [hsess] at hsess'
  simp only [Except.ok.injEq, Prod.mk.injEq] at hsess'
  obtain ⟨hreq, hsid, hdb⟩ := hsess'
  subst hreq hsid hdb
  rw [hhist] at hhist'
  simp only [Option.some.injEq] at hhist'
  have hstore : (runStart w db' req sid).db.store =
      { db'.store with chat_messages :=
          db'.store.chat_messages ++
            [{ session_id := sid, role := "user", content := some req.Q,
               created_at := db'.clock + 1 }] } := by
    simp only [runStart]
    rw [SaveMessage_store _ _ _ _ hsave, (TouchSession_store db' sid).1,
      (TouchSession_store db' sid).2]
  have hsorted : sessionHistory (runStart w db' req sid).db.store sid =
      sessionHistory db'.store sid ++
        [{ session_id := sid, role := "user", content := some req.Q,
           created_at := db'.clock + 1 }] := by
    rw [hstore]
    exact sessionHistory_concat db'.store sid req.Q (db'.clock + 1)
      (fun m hm hs => Nat.le_succ_of_le (hclock m hm hs))
  have hcount' : (sessionHistory (runStart w db' req sid).db.store sid).length ≤
      (clampLimit 100).toNat := hcount
  have hout := LoadHistoryAsContents_of_no_error (runStart w db' req sid).db.store sid 100 hload
  rw [List.take_of_length_le hcount', hsorted, List.map_append] at hout
  have hitem : historyItem
      { session_id := sid, role := "user", content := some req.Q, created_at := db'.clock + 1 } =
      NewContentFromText req.Q "user" := by
    simp [historyItem]
  simp only [List.map_cons, List.map_nil, hitem] at hout
  have hhistory : history =
      (sessionHistory db'.store sid).map historyItem ++ [NewContentFromText req.Q "user"] := by
    rw [hhist', hout]
  refine ⟨by rw [hhistory, List.getLast?_concat], ?_⟩
  intro pre c out post hsplit hzero
  rw [hr] at hsplit
  have hc := agentLoop_first_conversation (liftEnv env) _ _ _ _ _ _ _ _ pre c out post hsplit hzero
  rw [← hhist'] at hc
  refine ⟨hc, (sessionHistory db'.store sid).map historyItem, ?_⟩
  rw [hc, hhistory]
  simp

/-- C16, amended, on the follow-up query in a session with one earlier exchange: the
history is the two earlier turns and the user turn of the query, and the first
conversation ends with that turn twice. -/
theorem handleQueryAgent_repeats_query_witness :
    followUpRun.history =
      some [NewContentFromText "hi" "user", NewContentFromText "hello" "model",
        NewContentFromText "and now?" "user"] ∧
    ∃ r, followUpRun.run = some r ∧
      genConversations r.log =
        [[NewContentFromText "hi" "user", NewContentFromText "hello" "model",
          NewContentFromText "and now?" "user", NewContentFromText "and now?" "user"]] ∧
      [NewContentFromText "hi" "user", NewContentFromText "hello" "model",
        NewContentFromText "and now?" "user"].getLast? =
        some (NewContentFromText followUpReq.Q "user") ∧
      (∀ pre c out post, r.log = pre ++ Event.generate c out :: post → genCount pre = 0 →
        c = [NewContentFromText "hi" "user", NewContentFromText "hello" "model",
            NewContentFromText "and now?" "user"] ++ [NewContentFromText followUpReq.Q "user"] ∧
        ∃ before, c = before ++
          [NewContentFromText followUpReq.Q "user", NewContentFromText followUpReq.Q "user"]) :=
  ⟨by decide, _, rfl, by decide,
    handleQueryAgent_repeats_query (scripted (Except.ok []) echoTool) "gemini" (fun s => some s)
      "unused" [answer "fine"] priorDb "POST" (some followUpReq) followUpReq "s1" priorDb
      [NewContentFromText "hi" "user", NewContentFromText "hello" "model",
        NewContentFromText "and now?" "user"] _ rfl (by decide) (by decide) (by decide) rfl rfl⟩

end Gateway
